import Mathlib

/-!
# Barber calendar: grid generation, navigation, slots and appointment binning

A shallow embedding of the calendar logic of
`src/components/barber/BarberCalendar.jsx`: the day, week and month grids
(`generateCalendarDays`), navigation (`handleDateChange`), the half-hour slots
(`generateTimeSlots`), the day and slot filters (`getAppointmentsForDay` and the
filter of the week and day views), the status colours (`getStatusColor`) and
the construction of an appointment from the booking form (`createAppointment`).

The component works on JavaScript `Date` objects.  A `Date` is embedded as its
time value, an `Int` number of milliseconds since 1970-01-01T00:00:00Z, and the
built-in `Date` methods the component calls are embedded from their ECMAScript
definitions (sections "Time Values and Time Range" to "Date.prototype" of the
language specification).  Time values are taken to be finite and inside the
representable range, so `TimeClip` is the identity and `toISOString` does not
throw.

The host time zone is an explicit parameter: the component reads and writes
calendar fields in local time (`getDay`, `getDate`, `setDate`, `getMonth`,
`setMonth`, `getMinutes`, `setMinutes`, `toTimeString`) but renders dates through
`toISOString`, which is always UTC.

The development also covers the mock appointments of the calendar
(`generateMockAppointments`, with the values of `Math.random()` as an explicit
sequence), the client list of `src/components/barber/ClientManagement.jsx`
(`fetchClients`) and the revenue figures of
`src/components/barber/RevenueAnalytics.jsx` (`processAppointmentData`).  Prices
and random draws are exact rational numbers.  A `Map` and an object created by
`{}` are embedded as lists of entries in order of creation; for the object the
property names inherited from `Object.prototype` are part of the embedding.
-/

namespace BarberCalendar

/-! ## Time values -/

/-- Milliseconds in a day. -/
def msPerDay : Int := 86400000

/-- Milliseconds in an hour. -/
def msPerHour : Int := 3600000

/-- Milliseconds in a minute. -/
def msPerMinute : Int := 60000

/-- Milliseconds in a second. -/
def msPerSecond : Int := 1000

/-- Day number of a time value: `floor(t / msPerDay)`. -/
def Day (t : Int) : Int := t / msPerDay

/-- Milliseconds elapsed since the start of the day: `t modulo msPerDay`. -/
def TimeWithinDay (t : Int) : Int := t % msPerDay

/-- Number of days of year `y` in the proleptic Gregorian calendar. -/
def DaysInYear (y : Int) : Int :=
  if y % 4 ≠ 0 then 365
  else if y % 100 ≠ 0 then 366
  else if y % 400 ≠ 0 then 365
  else 366

/-- Day number of the first day of year `y`. -/
def DayFromYear (y : Int) : Int :=
  365 * (y - 1970) + (y - 1969) / 4 - (y - 1901) / 100 + (y - 1601) / 400

/-- Time value of the start of year `y`. -/
def TimeFromYear (y : Int) : Int := msPerDay * DayFromYear y

/-- The year of a time value: the largest `y` with `TimeFromYear y ≤ t`.
It is computed from an estimate by the mean year length, which is off by at
most one (`YearFromTime_spec` and `YearFromTime_unique` below show that the
result is that largest year). -/
def YearFromTime (t : Int) : Int :=
  let d := Day t
  let y := 1970 + (400 * d) / 146097
  if d < DayFromYear y then y - 1
  else if DayFromYear (y + 1) ≤ d then y + 1
  else y

/-- Whether the time value lies in a leap year (1) or not (0). -/
def InLeapYear (t : Int) : Int :=
  if DaysInYear (YearFromTime t) = 366 then 1 else 0

/-- Zero-based day number within the year. -/
def DayWithinYear (t : Int) : Int := Day t - DayFromYear (YearFromTime t)

/-- The month table: month number, 0 = January .. 11 = December, of the
zero-based day `d` of a year with leap flag `l` (1 in a leap year, else 0). -/
def monthOfYearDay (l d : Int) : Int :=
  if d < 31 then 0
  else if d < 59 + l then 1
  else if d < 90 + l then 2
  else if d < 120 + l then 3
  else if d < 151 + l then 4
  else if d < 181 + l then 5
  else if d < 212 + l then 6
  else if d < 243 + l then 7
  else if d < 273 + l then 8
  else if d < 304 + l then 9
  else if d < 334 + l then 10
  else 11

/-- Month number of a time value, 0 = January .. 11 = December. -/
def MonthFromTime (t : Int) : Int := monthOfYearDay (InLeapYear t) (DayWithinYear t)

/-- The date table: day of the month of the zero-based day `d` of a year with
leap flag `l`, given its month `m`. -/
def dateOfYearDay (m l d : Int) : Int :=
  if m = 0 then d + 1
  else if m = 1 then d - 30
  else if m = 2 then d - 58 - l
  else if m = 3 then d - 89 - l
  else if m = 4 then d - 119 - l
  else if m = 5 then d - 150 - l
  else if m = 6 then d - 180 - l
  else if m = 7 then d - 211 - l
  else if m = 8 then d - 242 - l
  else if m = 9 then d - 272 - l
  else if m = 10 then d - 303 - l
  else d - 333 - l

/-- Day of the month of a time value, 1 .. 31. -/
def DateFromTime (t : Int) : Int :=
  dateOfYearDay (MonthFromTime t) (InLeapYear t) (DayWithinYear t)

/-- Day of the week of a time value, 0 = Sunday .. 6 = Saturday. -/
def WeekDay (t : Int) : Int := (Day t + 4) % 7

/-- Hour of a time value, 0 .. 23. -/
def HourFromTime (t : Int) : Int := (t / msPerHour) % 24

/-- Minute of a time value, 0 .. 59. -/
def MinFromTime (t : Int) : Int := (t / msPerMinute) % 60

/-- Second of a time value, 0 .. 59. -/
def SecFromTime (t : Int) : Int := (t / msPerSecond) % 60

/-- Millisecond of a time value, 0 .. 999. -/
def msFromTime (t : Int) : Int := t % msPerSecond

/-- Milliseconds of a time of day given by its fields. -/
def MakeTime (hour min sec ms : Int) : Int :=
  hour * msPerHour + min * msPerMinute + sec * msPerSecond + ms

/-- Number of days that precede month `m` (0-based) in a year with leap flag
`l`. -/
def daysBeforeMonth (l m : Int) : Int :=
  if m = 0 then 0
  else if m = 1 then 31
  else if m = 2 then 59 + l
  else if m = 3 then 90 + l
  else if m = 4 then 120 + l
  else if m = 5 then 151 + l
  else if m = 6 then 181 + l
  else if m = 7 then 212 + l
  else if m = 8 then 243 + l
  else if m = 9 then 273 + l
  else if m = 10 then 304 + l
  else 334 + l

/-- Day number of the given year, month (0-based, any integer: it is carried
into the year) and day of the month (any integer: it is counted from the first
of the month, so day 0 is the last day of the previous month and day 32 runs
into the next). -/
def MakeDay (year month date : Int) : Int :=
  let ym := year + month / 12
  let mn := month % 12
  DayFromYear ym + daysBeforeMonth (if DaysInYear ym = 366 then 1 else 0) mn + date - 1

/-- Time value of a day number and a time within the day. -/
def MakeDate (day time : Int) : Int := day * msPerDay + time

/-! ## The host time zone -/

/-- The host time zone as the language specification sees it: the offset of
local time from UTC in milliseconds, at a UTC time value (`LocalTZA(t, true)`)
and at a local time value (`LocalTZA(t, false)`). -/
structure TimeZone where
  /-- Offset in force at the UTC time value. -/
  offsetAt : Int → Int
  /-- Offset used to read the local time value. -/
  offsetOfLocal : Int → Int

/-- A zone with a constant offset of `minutes` east of UTC. -/
def TimeZone.fixed (minutes : Int) : TimeZone where
  offsetAt := fun _ => minutes * msPerMinute
  offsetOfLocal := fun _ => minutes * msPerMinute

/-- The zone of UTC itself. -/
def TimeZone.utc : TimeZone := TimeZone.fixed 0

/-- A zone with standard offset `std` minutes and one summer-time period, one
hour ahead, between the UTC time values `start` and `stop`.  A local time that
is skipped or repeated at a transition is read with the offset in force before
the transition. -/
def TimeZone.summer (std : Int) (start stop : Int) : TimeZone where
  offsetAt := fun t =>
    if start ≤ t ∧ t < stop then std * msPerMinute + msPerHour else std * msPerMinute
  offsetOfLocal := fun l =>
    if start + std * msPerMinute + msPerHour ≤ l ∧ l < stop + std * msPerMinute + msPerHour
    then std * msPerMinute + msPerHour else std * msPerMinute

/-- Local time value of a UTC time value. -/
def LocalTime (tz : TimeZone) (t : Int) : Int := t + tz.offsetAt t

/-- UTC time value of a local time value. -/
def UTC (tz : TimeZone) (t : Int) : Int := t - tz.offsetOfLocal t

/-! ## Date methods used by the component -/

/-- The method `Date.prototype.getDay`: local day of the week. -/
def getDay (tz : TimeZone) (t : Int) : Int := WeekDay (LocalTime tz t)

/-- The method `Date.prototype.getDate`: local day of the month. -/
def getDate (tz : TimeZone) (t : Int) : Int := DateFromTime (LocalTime tz t)

/-- The method `Date.prototype.getMonth`: local month, 0-based. -/
def getMonth (tz : TimeZone) (t : Int) : Int := MonthFromTime (LocalTime tz t)

/-- The method `Date.prototype.setDate(dt)`: replaces the local day of the month, keeping
the local year, month and time of day; returns the new time value. -/
def setDate (tz : TimeZone) (t : Int) (dt : Int) : Int :=
  let lt := LocalTime tz t
  let newDate := MakeDate (MakeDay (YearFromTime lt) (MonthFromTime lt) dt) (TimeWithinDay lt)
  UTC tz newDate

/-- The method `Date.prototype.setMonth(month)`: replaces the local month,
keeping the local year, day of the month and time of day; a month outside 0..11
is carried into the year, and a day the month does not have runs into the next
month; returns the new time value. -/
def setMonth (tz : TimeZone) (t : Int) (month : Int) : Int :=
  let lt := LocalTime tz t
  let newDate :=
    MakeDate (MakeDay (YearFromTime lt) month (DateFromTime lt)) (TimeWithinDay lt)
  UTC tz newDate

/-- The method `Date.prototype.getMinutes`: local minute. -/
def getMinutes (tz : TimeZone) (t : Int) : Int := MinFromTime (LocalTime tz t)

/-- The method `Date.prototype.setMinutes(min)`: replaces the local minute,
keeping the local day, hour, second and millisecond; minutes outside 0..59 are
carried into the hour; returns the new time value. -/
def setMinutes (tz : TimeZone) (t : Int) (min : Int) : Int :=
  let lt := LocalTime tz t
  let date := MakeDate (Day lt) (MakeTime (HourFromTime lt) min (SecFromTime lt) (msFromTime lt))
  UTC tz date

/-- Decimal digit character of `n % 10`. -/
def digitChar (n : Nat) : Char := Char.ofNat (48 + n % 10)

/-- The last `width` decimal digits of `n`, zero-padded on the left. -/
def padDigits : Nat → Nat → List Char
  | 0, _ => []
  | w + 1, n => padDigits w (n / 10) ++ [digitChar n]

/-- Year field of `toISOString`: four digits for years 0 to 9999, otherwise a
sign and six digits. -/
def isoYear (y : Int) : List Char :=
  if 0 ≤ y ∧ y ≤ 9999 then padDigits 4 y.toNat
  else if 0 ≤ y then '+' :: padDigits 6 y.toNat
  else '-' :: padDigits 6 (-y).toNat

/-- Date part `YYYY-MM-DD` of `toISOString`, in UTC. -/
def isoDateChars (t : Int) : List Char :=
  isoYear (YearFromTime t) ++ ['-'] ++ padDigits 2 (MonthFromTime t + 1).toNat
    ++ ['-'] ++ padDigits 2 (DateFromTime t).toNat

/-- Time part `HH:mm:ss.sss` of `toISOString`, in UTC. -/
def isoTimeChars (t : Int) : List Char :=
  padDigits 2 (HourFromTime t).toNat ++ [':'] ++ padDigits 2 (MinFromTime t).toNat
    ++ [':'] ++ padDigits 2 (SecFromTime t).toNat ++ ['.'] ++ padDigits 3 (msFromTime t).toNat

/-- The method `Date.prototype.toISOString`: `YYYY-MM-DDTHH:mm:ss.sssZ` in UTC. -/
def toISOString (t : Int) : String :=
  String.mk (isoDateChars t ++ ['T'] ++ isoTimeChars t ++ ['Z'])

/-- The expression `s.split('T')[0]`: the text before the first `T`. -/
def splitT0 (s : String) : String :=
  String.mk (s.data.takeWhile (fun c => c != 'T'))

/-- The expression `d.toISOString().split('T')[0]` of the component. -/
def isoDate (t : Int) : String := splitT0 (toISOString t)

/-- The en-US short weekday names, indexed by day of the week from Sunday. -/
def shortWeekdays : List String := ["Sun", "Mon", "Tue", "Wed", "Thu", "Fri", "Sat"]

/-- The function `getDayName(date)`:
`date.toLocaleDateString('en-US', { weekday: 'short' })`, the short name of the
local day of the week. -/
def getDayName (tz : TimeZone) (t : Int) : String :=
  shortWeekdays.getD (getDay tz t).toNat ""

/-- Value of a decimal digit character, if it is one. -/
def digitValue (c : Char) : Option Int :=
  if 48 ≤ c.toNat ∧ c.toNat ≤ 57 then some (c.toNat - 48 : Nat) else none

/-- Value of a run of decimal digit characters, most significant first, on top
of the value `acc` of the digits already read. -/
def digitsValue (acc : Int) : List Char → Option Int
  | [] => some acc
  | c :: cs =>
    match digitValue c with
    | some v => digitsValue (10 * acc + v) cs
    | none => none

/-- UTC midnight of a calendar date given by year, month 1..12 and day 1..31;
nothing for a month or day outside these bounds. -/
def utcMidnight (y m d : Int) : Option Int :=
  if 1 ≤ m ∧ m ≤ 12 ∧ 1 ≤ d ∧ d ≤ 31 then some (MakeDate (MakeDay y (m - 1) d) 0) else none

/-- The function `Date.parse` on the date-only forms `YYYY-MM-DD` and `±YYYYYY-MM-DD`, the
forms `toISOString().split('T')[0]` produces: a date-only string denotes UTC
midnight.  Any other text yields nothing (an invalid date). -/
def parseIsoDate (s : String) : Option Int :=
  match s.data with
  | [y1, y2, y3, y4, '-', m1, m2, '-', d1, d2] =>
    match digitsValue 0 [y1, y2, y3, y4], digitsValue 0 [m1, m2], digitsValue 0 [d1, d2] with
    | some y, some m, some d => utcMidnight y m d
    | _, _, _ => none
  | [sg, y1, y2, y3, y4, y5, y6, '-', m1, m2, '-', d1, d2] =>
    match digitsValue 0 [y1, y2, y3, y4, y5, y6], digitsValue 0 [m1, m2], digitsValue 0 [d1, d2] with
    | some y, some m, some d =>
      if sg = '+' then utcMidnight y m d
      else if sg = '-' ∧ y ≠ 0 then utcMidnight (-y) m d
      else none
    | _, _, _ => none
  | _ => none

/-- Local time of day given by hour, minute and second; the hour 24 is allowed
for midnight at the end of the day only. -/
def timeOfDay (h mi sec : Int) : Option Int :=
  if (h ≤ 23 ∧ mi ≤ 59 ∧ sec ≤ 59) ∨ (h = 24 ∧ mi = 0 ∧ sec = 0) then
    some (MakeTime h mi sec 0)
  else none

/-- The function `Date.parse` on the date-time form `YYYY-MM-DDTHH:mm:ss`, the
form of the text `${date}T${time}:00` that `createAppointment` builds from the
date and time inputs: without a zone designator the text denotes local time.
Any other text yields nothing (an invalid date). -/
def parseLocalDateTime (tz : TimeZone) (s : String) : Option Int :=
  match s.data with
  | [y1, y2, y3, y4, '-', m1, m2, '-', d1, d2, 'T', h1, h2, ':', n1, n2, ':', s1, s2] =>
    match digitsValue 0 [y1, y2, y3, y4], digitsValue 0 [m1, m2], digitsValue 0 [d1, d2],
      digitsValue 0 [h1, h2], digitsValue 0 [n1, n2], digitsValue 0 [s1, s2] with
    | some y, some m, some d, some h, some mi, some sec =>
      if 1 ≤ m ∧ m ≤ 12 ∧ 1 ≤ d ∧ d ≤ 31 then
        (timeOfDay h mi sec).map (fun time => UTC tz (MakeDate (MakeDay y (m - 1) d) time))
      else none
    | _, _, _, _, _, _ => none
  | _ => none

/-! ## Calendar cells -/

/-- A calendar cell: the object pushed onto `days` in `generateCalendarDays`. -/
structure Cell where
  date : String
  dayName : String
  dayNumber : Int
  deriving DecidableEq, Repr

/-- The cell built from a `Date`:
`{ date: d.toISOString().split('T')[0], dayName: getDayName(d), dayNumber: d.getDate() }`. -/
def cellOf (tz : TimeZone) (t : Int) : Cell where
  date := isoDate t
  dayName := getDayName tz t
  dayNumber := getDate tz t

/-- The `while (startDate.getMonth() === month)` loop of the month branch of
`generateCalendarDays`: `startDate` is the loop variable and `days` the cells
pushed so far.  The loop is run for at most `fuel` tests of its condition and
yields nothing when they do not suffice. -/
def monthLoop (tz : TimeZone) (month : Int) : Nat → Int → List Cell → Option (List Cell)
  | 0, _, _ => none
  | fuel + 1, startDate, days =>
    if getMonth tz startDate = month then
      monthLoop tz month fuel (setDate tz startDate (getDate tz startDate + 1))
        (days ++ [cellOf tz startDate])
    else some days

/-- Number of tests of the loop condition granted to the month loop: a month has
at most 31 days, after which the condition fails. -/
def monthFuel : Nat := 32

/-- The function `generateCalendarDays()` over the state `selectedDate` and
`calendarView`; the result is the list handed to `setCalendarDays`. -/
def generateCalendarDays (tz : TimeZone) (selectedDate : Int) (calendarView : String) :
    Option (List Cell) :=
  let startDate := selectedDate
  if calendarView = "day" then
    some [cellOf tz startDate]
  else if calendarView = "week" then
    let dayOfWeek := getDay tz startDate
    let startDate := setDate tz startDate (getDate tz startDate - dayOfWeek)
    some ((List.range 7).map (fun (i : Nat) =>
      cellOf tz (setDate tz startDate (getDate tz startDate + (i : Int)))))
  else if calendarView = "month" then
    let startDate := setDate tz startDate 1
    let month := getMonth tz startDate
    monthLoop tz month monthFuel startDate []
  else some []

/-- Number of empty cells rendered before the first day in month view:
`new Date(calendarDays[0]?.date)?.getDay() || 0`. -/
def monthPadding (tz : TimeZone) (calendarDays : List Cell) : Int :=
  match calendarDays.head? with
  | none => 0
  | some c =>
    match parseIsoDate c.date with
    | none => 0
    | some t => getDay tz t

/-! ## Navigation -/

/-- The function `handleDateChange(offset)` over the state `selectedDate` and
`calendarView`; the result is the time value of the `Date` handed to
`setSelectedDate`. -/
def handleDateChange (tz : TimeZone) (selectedDate : Int) (calendarView : String)
    (offset : Int) : Int :=
  let newDate := selectedDate
  if calendarView = "day" then
    setDate tz newDate (getDate tz newDate + offset)
  else if calendarView = "week" then
    setDate tz newDate (getDate tz newDate + offset * 7)
  else if calendarView = "month" then
    setMonth tz newDate (getMonth tz newDate + offset)
  else newDate

/-- The function `handleDateChange(offset)` with its `Date` objects made
explicit.  A store lists the time values of the `Date` objects alive, an object
being its position in the list; `selectedDate` is the object in the state.  The
statement `new Date(selectedDate)` appends a fresh object holding a copy of the
time value, the setters overwrite that fresh object, and it is the object handed
to `setSelectedDate`.  The result is the new store and the new state. -/
def handleDateChangeIn (tz : TimeZone) (store : List Int) (selectedDate : Nat)
    (calendarView : String) (offset : Int) : List Int × Nat :=
  let newDate := store.length
  let store := store ++ [store.getD selectedDate 0]
  let value := store.getD newDate 0
  if calendarView = "day" then
    (store.set newDate (setDate tz value (getDate tz value + offset)), newDate)
  else if calendarView = "week" then
    (store.set newDate (setDate tz value (getDate tz value + offset * 7)), newDate)
  else if calendarView = "month" then
    (store.set newDate (setMonth tz value (getMonth tz value + offset)), newDate)
  else (store, newDate)

/-! ## Time slots and the slot filter -/

/-- The expression `n.toString().padStart(2, '0')` for a non-negative integer
`n`: its decimal digits, with zeros put in front up to a length of two. -/
def padStart2 (n : Nat) : List Char :=
  List.leftpad 2 '0' (Nat.toDigits 10 n)

/-- The template literal of `generateTimeSlots`: hour and minute, each padded
to two digits, around a colon. -/
def slotLabel (hour minute : Nat) : String :=
  String.mk (padStart2 hour ++ [':'] ++ padStart2 minute)

/-- The function `generateTimeSlots()`: the list handed to `setTimeSlots`.  The
outer loop runs `hour` over 8, 9, .., 19 and the inner loop `minute` over 0 and
30. -/
def generateTimeSlots : List String :=
  (List.range' 8 12).flatMap (fun hour =>
    (List.range' 0 2 30).map (fun minute => slotLabel hour minute))

/-- The expression `d.toTimeString().substring(0, 5)`: the first five
characters of the local time string, `HH:mm`; the rest of the string (seconds
and the name of the zone) is cut off. -/
def timeStringPrefix (tz : TimeZone) (t : Int) : String :=
  String.mk (padDigits 2 (HourFromTime (LocalTime tz t)).toNat ++ [':']
    ++ padDigits 2 (MinFromTime (LocalTime tz t)).toNat)

/-! ## Status colours -/

/-- The function `getStatusColor(status)`; a missing status is `none`. -/
def getStatusColor (status : Option String) : String :=
  if status = some "completed" then "#4ade80"
  else if status = some "cancelled" then "#f87171"
  else if status = some "no-show" then "#f97316"
  else "#60a5fa"

/-! ## Appointments and binning -/

/-- An appointment row as the calendar holds it.  `start_time` and `end_time`
hold the time values that `new Date(apt.start_time)` and
`new Date(apt.end_time)` yield: the store column is a timestamp. -/
structure Appointment where
  id : String
  client_id : String
  service_id : String
  start_time : Int
  end_time : Int
  status : String
  notes : String
  deriving DecidableEq, Repr

/-- The comparator handed to `sort` in `getAppointmentsForDay`:
`new Date(a.start_time) - new Date(b.start_time)`. -/
def compareStart (a b : Appointment) : Int := a.start_time - b.start_time

/-- The method `Array.prototype.sort(cmp)`.  The language specification requires the sort
to be stable, so for a consistent comparator the result is the one stable
sorted arrangement; it is computed here by insertion, an element going before
the first later element `b` with `cmp a b ≤ 0`. -/
def jsSort {α : Type} (cmp : α → α → Int) (l : List α) : List α :=
  l.insertionSort (fun a b => cmp a b ≤ 0)

/-- The function `getAppointmentsForDay(day)` over the appointment collection
`appointments` of the component state. -/
def getAppointmentsForDay (appointments : List Appointment) (day : String) :
    List Appointment :=
  jsSort compareStart
    (appointments.filter (fun apt => decide (isoDate apt.start_time = day)))

/-! ## Creating appointments -/

/-- A service of the catalogue, as the calendar reads it. -/
structure Service where
  id : String
  name : String
  duration : Int
  price : Rat

/-- The booking form: the state `newAppointment`. -/
structure NewAppointment where
  client_id : String
  service_id : String
  date : String
  time : String
  duration : Int
  notes : String

/-- The function `createAppointment()`: the appointment it builds from the form,
or nothing when the date and time do not parse (the start is then an invalid
date, `toISOString` throws and the `catch` block reports the failure).  The
object added to the local state and the row sent to the store carry the same
`start_time`, `end_time`, `status` and `notes`.  `now` is the value of
`Date.now()`, used in the identifier of the local object; the service is looked
up by `s.id == newAppointment.service_id`, with the identifiers taken as the
texts the `select` element holds. -/
def createAppointment (tz : TimeZone) (now : Int) (services : List Service)
    (newAppointment : NewAppointment) : Option Appointment :=
  let startDateTime := newAppointment.date ++ "T" ++ newAppointment.time ++ ":00"
  let serviceObj := services.find? (fun s => s.id == newAppointment.service_id)
  let durationMinutes :=
    match serviceObj with
    | some service => service.duration
    | none => 30
  match parseLocalDateTime tz startDateTime with
  | none => none
  | some startTime =>
    let endTime := setMinutes tz startTime (getMinutes tz startTime + durationMinutes)
    some {
      id := "mock-appointment-" ++ toString now
      client_id := newAppointment.client_id
      service_id := newAppointment.service_id
      start_time := startTime
      end_time := endTime
      notes := newAppointment.notes
      status := "scheduled" }

/-- The row `createAppointment()` sends to the store for a real barber: the
argument of `insert`. -/
structure AppointmentRow where
  barber_id : String
  client_id : String
  service_id : String
  start_time : Int
  end_time : Int
  notes : String
  status : String
  tenant_id : String
  deriving DecidableEq, Repr

/-- The function `createAppointment()` in the branch of a real barber: the row
it sends to the store, or nothing when the date and time do not parse.
`userId` is `user.id` and `tenantId` the tenant read from the profile. -/
def createAppointmentRow (tz : TimeZone) (userId tenantId : String) (services : List Service)
    (newAppointment : NewAppointment) : Option AppointmentRow :=
  let startDateTime := newAppointment.date ++ "T" ++ newAppointment.time ++ ":00"
  let serviceObj := services.find? (fun s => s.id == newAppointment.service_id)
  let durationMinutes :=
    match serviceObj with
    | some service => service.duration
    | none => 30
  match parseLocalDateTime tz startDateTime with
  | none => none
  | some startTime =>
    let endTime := setMinutes tz startTime (getMinutes tz startTime + durationMinutes)
    some {
      barber_id := userId
      client_id := newAppointment.client_id
      service_id := newAppointment.service_id
      start_time := startTime
      end_time := endTime
      notes := newAppointment.notes
      status := "scheduled"
      tenant_id := tenantId }

/-! ## Editing and deleting appointments -/

/-- The object `updates` handed to `updateAppointment`: a field the object does
not have is `none`. -/
structure AppointmentUpdates where
  id : Option String
  client_id : Option String
  service_id : Option String
  start_time : Option Int
  end_time : Option Int
  status : Option String
  notes : Option String

/-- The object `{ ...apt, ...updates }`: the fields of `updates` replace those
of `apt`. -/
def applyUpdates (apt : Appointment) (updates : AppointmentUpdates) : Appointment where
  id := updates.id.getD apt.id
  client_id := updates.client_id.getD apt.client_id
  service_id := updates.service_id.getD apt.service_id
  start_time := updates.start_time.getD apt.start_time
  end_time := updates.end_time.getD apt.end_time
  status := updates.status.getD apt.status
  notes := updates.notes.getD apt.notes

/-- The update of the local state in `updateAppointment(id, updates)`:
`prev.map(apt => apt.id === id ? { ...apt, ...updates } : apt)`. -/
def updateAppointment (appointments : List Appointment) (id : String)
    (updates : AppointmentUpdates) : List Appointment :=
  appointments.map (fun apt => if apt.id = id then applyUpdates apt updates else apt)

/-- The object `{ status, notes }` that the detail dialog hands to
`updateAppointment`. -/
def statusAndNotes (status notes : String) : AppointmentUpdates where
  id := none
  client_id := none
  service_id := none
  start_time := none
  end_time := none
  status := some status
  notes := some notes

/-- The update of the local state in `deleteAppointment(id)`:
`prev.filter(apt => apt.id !== id)`, which is reached only when the user has
confirmed the dialog (`confirmed`). -/
def deleteAppointment (confirmed : Bool) (appointments : List Appointment) (id : String) :
    List Appointment :=
  if confirmed then appointments.filter (fun apt => apt.id != id) else appointments

/-- The slot filter of the week and day views: the expression
`dayAppointments.filter(apt => aptTime === time)` with
`aptTime = new Date(apt.start_time).toTimeString().substring(0, 5)`. -/
def binByTimeSlot (tz : TimeZone) (dayAppointments : List Appointment) (time : String) :
    List Appointment :=
  dayAppointments.filter (fun apt => decide (timeStringPrefix tz apt.start_time = time))

/-! ## Client list (`ClientManagement.jsx`) -/

/-- The joined profile of a client in a row of the appointment query. -/
structure Profile where
  id : String
  first_name : String
  last_name : String
  email : String
  phone : String
  deriving DecidableEq, Repr

/-- A row of the appointment query of `fetchClients`; `profiles` is `none` when
the join found no profile (`null`). -/
structure ClientRow where
  client_id : Option String
  profiles : Option Profile
  deriving DecidableEq, Repr

/-- A client of the client list: the profile fields and the fields `fetchClients`
adds. -/
structure ClientEntry where
  id : String
  first_name : String
  last_name : String
  email : String
  phone : String
  total_visits : Nat
  last_visit : String
  preferred_service : String
  notes : String
  deriving DecidableEq, Repr

/-- The object `{ ...client, total_visits: 1, last_visit: 'Unknown',
preferred_service: 'Unknown', notes: '' }`. -/
def newClientEntry (client : Profile) : ClientEntry where
  id := client.id
  first_name := client.first_name
  last_name := client.last_name
  email := client.email
  phone := client.phone
  total_visits := 1
  last_visit := "Unknown"
  preferred_service := "Unknown"
  notes := ""

/-- One call of the `forEach` callback of `fetchClients` on the `Map`
`clientMap`, kept as the list of its entries in insertion order: a profile seen
for the first time is added at the end with one visit, a profile seen before has
the visits of its entry raised by one, and a row without profile changes
nothing. -/
def clientMapStep (clientMap : List (String × ClientEntry)) (appointment : ClientRow) :
    List (String × ClientEntry) :=
  match appointment.profiles with
  | none => clientMap
  | some client =>
    if ¬ (clientMap.any (fun e => e.1 == client.id)) then
      clientMap ++ [(client.id, newClientEntry client)]
    else
      clientMap.map (fun e =>
        if e.1 = client.id then (e.1, { e.2 with total_visits := e.2.total_visits + 1 })
        else e)

/-- The client list that `fetchClients` hands to `setClients` for the rows
`data` of the query: `Array.from(clientMap.values())` after the `forEach`. -/
def buildClientList (data : List ClientRow) : List ClientEntry :=
  (data.foldl clientMapStep []).map (fun e => e.2)

/-! ## Revenue analytics (`RevenueAnalytics.jsx`) -/

/-- The joined service of a completed appointment, selected as
`services:service_id (name, price)`; a column that is null is `none`.  Prices
are exact rational numbers. -/
structure ServiceInfo where
  name : Option String
  price : Option ℚ

/-- A row of the query of completed appointments that `processAppointmentData`
receives; `start_time` is the time value `new Date(appointment.start_time)`
yields, `services` is null when the row has no service. -/
structure CompletedAppointment where
  start_time : Int
  services : Option ServiceInfo

/-- The expression `appointment.services?.price || 0`: a missing service, a
missing price and the price 0 all give 0. -/
def rowPrice (appointment : CompletedAppointment) : ℚ :=
  match appointment.services with
  | none => 0
  | some s =>
    match s.price with
    | none => 0
    | some p => if p = 0 then 0 else p

/-- The expression `appointment.services?.name || 'Unknown'`: a missing service,
a missing name and the empty name all give `Unknown`. -/
def rowServiceName (appointment : CompletedAppointment) : String :=
  match appointment.services with
  | none => "Unknown"
  | some s =>
    match s.name with
    | none => "Unknown"
    | some n => if n = "" then "Unknown" else n

/-- Own property lookup in an object created by the literal `{}`.  Such an
object is embedded as the list of its own properties in order of creation. -/
def ownGet {V : Type} : List (String × V) → String → Option V
  | [], _ => none
  | (k, v) :: rest, key => if k = key then some v else ownGet rest key

/-- Assignment `obj[key] = v` to an own data property: an existing property
keeps its place, a new one is created last. -/
def ownSet {V : Type} : List (String × V) → String → V → List (String × V)
  | [], key, v => [(key, v)]
  | (k, w) :: rest, key, v =>
    if k = key then (k, v) :: rest else (k, w) :: ownSet rest key v

/-- The property names every object created by `{}` inherits from
`Object.prototype`.  The inherited values are functions (for `__proto__` the
prototype object itself), all of them truthy. -/
def objectPrototypeKeys : List String :=
  ["constructor", "__defineGetter__", "__defineSetter__", "hasOwnProperty",
   "__lookupGetter__", "__lookupSetter__", "isPrototypeOf", "propertyIsEnumerable",
   "toString", "valueOf", "__proto__", "toLocaleString"]

/-- The array index a property name denotes, if any: the canonical decimal
text of an integer from 0 to 2^32 - 2. -/
def arrayIndex (key : String) : Option Int :=
  match key.data with
  | [] => none
  | c :: cs =>
    if c = '0' ∧ cs ≠ [] then none
    else
      match digitsValue 0 (c :: cs) with
      | some v => if v < 4294967295 then some v else none
      | none => none

/-- The function `Object.entries(obj)`: the own properties, those named by an array index
first in ascending numeric order, then the others in order of creation. -/
def objectEntries {V : Type} (obj : List (String × V)) : List (String × V) :=
  (obj.filter (fun e => (arrayIndex e.1).isSome)).insertionSort
      (fun a b => (arrayIndex a.1).getD 0 ≤ (arrayIndex b.1).getD 0)
    ++ obj.filter (fun e => !(arrayIndex e.1).isSome)

/-- The value `{ count, revenue }` kept for a service in `serviceCounts`. -/
structure ServiceCount where
  count : Nat
  revenue : ℚ

/-- The service statements of the loop body of `processAppointmentData`:
`if (!serviceCounts[serviceName]) serviceCounts[serviceName] = { count: 0, revenue: 0 }`
and the two additions.  The lookup `serviceCounts[serviceName]` is truthy for an
own property and for a name inherited from `Object.prototype`; for an inherited
name that is not an own property the additions write to the inherited object
and `serviceCounts` gets no property. -/
def serviceCountsStep (serviceCounts : List (String × ServiceCount)) (serviceName : String)
    (price : ℚ) : List (String × ServiceCount) :=
  let initialised :=
    if (ownGet serviceCounts serviceName).isNone ∧ serviceName ∉ objectPrototypeKeys then
      ownSet serviceCounts serviceName ⟨0, 0⟩
    else serviceCounts
  match ownGet initialised serviceName with
  | some data => ownSet initialised serviceName ⟨data.count + 1, data.revenue + price⟩
  | none => initialised

/-- The revenue statements of the loop body for one of the two revenue maps:
`if (!map[key]) map[key] = 0; map[key] += price`.  The keys are date texts
produced by `toISOString`, which begin with a digit or a sign and so are never
names inherited from `Object.prototype`. -/
def revenueMapStep (map : List (String × ℚ)) (key : String) (price : ℚ) :
    List (String × ℚ) :=
  let initialised :=
    match ownGet map key with
    | none => ownSet map key 0
    | some v => if v = 0 then ownSet map key 0 else map
  ownSet initialised key ((ownGet initialised key).getD 0 + price)

/-- The expression `new Date(appointment.start_time).toISOString().substring(0, 7)`. -/
def isoMonth (t : Int) : String := String.mk ((toISOString t).data.take 7)

/-- The state of the loop of `processAppointmentData`. -/
structure RevenueState where
  totalPrice : ℚ
  serviceCounts : List (String × ServiceCount)
  dailyRevenueMap : List (String × ℚ)
  monthlyRevenueMap : List (String × ℚ)

/-- The body of `appointments.forEach` in `processAppointmentData`. -/
def revenueStep (st : RevenueState) (appointment : CompletedAppointment) : RevenueState :=
  let price := rowPrice appointment
  let serviceName := rowServiceName appointment
  { totalPrice := st.totalPrice + price
    serviceCounts := serviceCountsStep st.serviceCounts serviceName price
    dailyRevenueMap := revenueMapStep st.dailyRevenueMap (isoDate appointment.start_time) price
    monthlyRevenueMap :=
      revenueMapStep st.monthlyRevenueMap (isoMonth appointment.start_time) price }

/-- The function `Math.round`: the nearest integer, a half rounding up. -/
def mathRound (x : ℚ) : Int := ⌊x + 1 / 2⌋

/-- The scan for the top service: a service replaces the current one when its
revenue is strictly greater. -/
def topServiceStep (top : String × ℚ) (entry : String × ServiceCount) : String × ℚ :=
  if entry.2.revenue > top.2 then (entry.1, entry.2.revenue) else top

/-- An entry of `serviceBreakdown`. -/
structure BreakdownEntry where
  name : String
  count : Nat
  revenue : ℚ

/-- An entry of `dailyRevenue` (field `date`) or of `monthlyTrend` (field
`month`): the key and the amount. -/
structure RevenuePoint where
  key : String
  amount : ℚ

/-- The method `Array.prototype.sort(cmp)` for a comparator that yields a rational number;
stable, as `jsSort`. -/
def jsSortNum {α : Type} (cmp : α → α → ℚ) (l : List α) : List α :=
  l.insertionSort (fun a b => cmp a b ≤ 0)

/-- The result of `processAppointmentData`. -/
structure RevenueData where
  totalRevenue : ℚ
  appointmentsCompleted : Nat
  averageService : ℚ
  topService : String
  dailyRevenue : List RevenuePoint
  serviceBreakdown : List BreakdownEntry
  monthlyTrend : List RevenuePoint

/-- The function `processAppointmentData(appointments)`.  The method `localeCompare`
depends on the host locale and is a parameter. -/
def processAppointmentData (localeCompare : String → String → Int)
    (appointments : List CompletedAppointment) : RevenueData :=
  let st := appointments.foldl revenueStep ⟨0, [], [], []⟩
  { totalRevenue := st.totalPrice
    appointmentsCompleted := appointments.length
    averageService :=
      if appointments.length > 0 then
        (mathRound (st.totalPrice / appointments.length * 100) : ℚ) / 100
      else 0
    topService := ((objectEntries st.serviceCounts).foldl topServiceStep ("", 0)).1
    dailyRevenue :=
      jsSort (fun a b => localeCompare a.key b.key)
        ((objectEntries st.dailyRevenueMap).map (fun e => ⟨e.1, e.2⟩))
    serviceBreakdown :=
      jsSortNum (fun a b => b.revenue - a.revenue)
        ((objectEntries st.serviceCounts).map (fun e => ⟨e.1, e.2.count, e.2.revenue⟩))
    monthlyTrend :=
      jsSort (fun a b => localeCompare a.key b.key)
        ((objectEntries st.monthlyRevenueMap).map (fun e => ⟨e.1, e.2⟩)) }

/-- A completed appointment of 4 March 2024, 16:00 UTC, with the given service
name and price. -/
def completedRow (name : String) (price : ℚ) : CompletedAppointment :=
  ⟨1709568000000, some ⟨some name, some price⟩⟩

/-- Ordinal comparison of two texts by code units, a stand-in for the method
`localeCompare` on the date texts. -/
def ordinalCompare (a b : String) : Int :=
  if a.data < b.data then -1 else if a.data = b.data then 0 else 1

/-! ## Mock appointments -/

/-- The method `Date.prototype.setHours(hour, min, sec, ms)`: replaces the local time of day,
keeping the local day; returns the new time value. -/
def setHours (tz : TimeZone) (t : Int) (hour min sec ms : Int) : Int :=
  let lt := LocalTime tz t
  UTC tz (MakeDate (Day lt) (MakeTime hour min sec ms))

/-- The element access `array[index]` for an integer index: nothing
(`undefined`) outside the array. -/
def jsIndex {α : Type} (array : List α) (index : Int) : Option α :=
  if 0 ≤ index then array[index.toNat]? else none

/-- The number that the literal `0.2` denotes: the double nearest to one fifth. -/
def doubleOneFifth : ℚ := 3602879701896397 / 18014398509481984

/-- One turn of the loop of `generateMockAppointments`, for the counter `i`,
reading the draws of `Math.random()` from position `k` on: the appointment
pushed and the position of the next draw, or nothing when the client or the
service drawn is `undefined` (reading its `id` throws).  The draws are taken in
the order of evaluation: day, hour, minute, client, service, notes, status, and
a second draw for the status when the first is at most `0.2`.  The products
with the draws are exact.  The joined fields `profiles` and `services` of the
object are display data and are left out, as in `Appointment`. -/
def mockAppointmentAt (tz : TimeZone) (currentDate : Int) (clients : List Profile)
    (services : List Service) (rand : Nat → ℚ) (i k : Nat) : Option (Appointment × Nat) :=
  let dated := setDate tz currentDate (getDate tz currentDate - 7 + ⌊rand k * 14⌋)
  let hour := 9 + ⌊rand (k + 1) * 8⌋
  let minute : Int := if rand (k + 2) > 1 / 2 then 30 else 0
  let appointmentDate := setHours tz dated hour minute 0 0
  let clientIndex := ⌊rand (k + 3) * clients.length⌋
  let serviceIndex := ⌊rand (k + 4) * services.length⌋
  match jsIndex clients clientIndex, jsIndex services serviceIndex with
  | some client, some service =>
    let endTime :=
      setMinutes tz appointmentDate (getMinutes tz appointmentDate + service.duration)
    let notes := if rand (k + 5) > 1 / 2 then "Some notes for this appointment" else ""
    let status :=
      if rand (k + 6) > doubleOneFifth then "scheduled"
      else if rand (k + 7) > 1 / 2 then "completed" else "cancelled"
    let next := if rand (k + 6) > doubleOneFifth then k + 7 else k + 8
    some ({ id := "mock-appointment-" ++ toString i
            client_id := client.id
            service_id := service.id
            start_time := appointmentDate
            end_time := endTime
            notes := notes
            status := status }, next)
  | _, _ => none

/-- The loop `for (let i = 0; i < numberOfAppointments; i++)` with `remaining`
turns to go. -/
def mockLoop (tz : TimeZone) (currentDate : Int) (clients : List Profile)
    (services : List Service) (rand : Nat → ℚ) :
    Nat → Nat → Nat → List Appointment → Option (List Appointment)
  | 0, _, _, mockAppointments => some mockAppointments
  | remaining + 1, i, k, mockAppointments =>
    match mockAppointmentAt tz currentDate clients services rand i k with
    | none => none
    | some (apt, next) =>
      mockLoop tz currentDate clients services rand remaining (i + 1) next
        (mockAppointments ++ [apt])

/-- The function `generateMockAppointments()`.  `currentDate` is the time value of
`new Date()`, `clients` and `services` are the state of the component and
`rand` is the sequence of values `Math.random()` returns. -/
def generateMockAppointments (tz : TimeZone) (currentDate : Int) (clients : List Profile)
    (services : List Service) (rand : Nat → ℚ) : Option (List Appointment) :=
  let numberOfAppointments := 10 + ⌊rand 0 * 6⌋
  mockLoop tz currentDate clients services rand numberOfAppointments.toNat 0 1 []

/-! ## Specification vocabulary -/

/-- The month table as a relation between leap flag, day of the year and month. -/
def MonthSpec (l d x : Int) : Prop :=
  (d < 31 ∧ x = 0) ∨
  (31 ≤ d ∧ d < 59 + l ∧ x = 1) ∨
  (59 + l ≤ d ∧ d < 90 + l ∧ x = 2) ∨
  (90 + l ≤ d ∧ d < 120 + l ∧ x = 3) ∨
  (120 + l ≤ d ∧ d < 151 + l ∧ x = 4) ∨
  (151 + l ≤ d ∧ d < 181 + l ∧ x = 5) ∨
  (181 + l ≤ d ∧ d < 212 + l ∧ x = 6) ∨
  (212 + l ≤ d ∧ d < 243 + l ∧ x = 7) ∨
  (243 + l ≤ d ∧ d < 273 + l ∧ x = 8) ∨
  (273 + l ≤ d ∧ d < 304 + l ∧ x = 9) ∨
  (304 + l ≤ d ∧ d < 334 + l ∧ x = 10) ∨
  (334 + l ≤ d ∧ x = 11)

/-- A zone is regular when a local time that is written and read back lies on
the same or the next local calendar day.  Zones with a constant offset are
regular, and so are zones whose clocks are put forward or back by an hour. -/
def TimeZone.Regular (tz : TimeZone) : Prop :=
  ∀ l : Int, Day l ≤ Day (LocalTime tz (UTC tz l)) ∧ Day (LocalTime tz (UTC tz l)) ≤ Day l + 1

/-- Minutes since midnight that a label `HH:MM` denotes, if it has that form. -/
def labelMinutes (s : String) : Option Int :=
  match s.data with
  | [h1, h2, ':', m1, m2] =>
    match digitsValue 0 [h1, h2], digitsValue 0 [m1, m2] with
    | some h, some m => some (60 * h + m)
    | _, _ => none
  | _ => none

/-- A zone is day-stable when a local time that is written and read back lies
on the same local calendar day: no clock change skips over a local midnight.
Zones with a constant offset are day-stable. -/
def TimeZone.DayStable (tz : TimeZone) : Prop :=
  ∀ l : Int, Day (LocalTime tz (UTC tz l)) = Day l

/-- Leap flag of year `y`: 1 in a leap year, else 0. -/
def leapFlag (y : Int) : Int := if DaysInYear y = 366 then 1 else 0

/-- Number of days of month `m` (0-based) of year `y`. -/
def DaysInMonth (y m : Int) : Int :=
  if m = 1 then 28 + leapFlag y
  else if m = 3 ∨ m = 5 ∨ m = 8 ∨ m = 10 then 30
  else 31

/-- Year of the month that lies `offset` months from the month of the local
time value `lt`. -/
def targetYear (lt offset : Int) : Int := YearFromTime lt + (MonthFromTime lt + offset) / 12

/-- Month (0-based) that lies `offset` months from the month of the local time
value `lt`: for `offset = 1` the month after (January after December), for
`offset = -1` the month before (December before January). -/
def targetMonth (lt offset : Int) : Int := (MonthFromTime lt + offset) % 12

/-- The distinct elements of a list in the order of their first occurrence. -/
def firstOccurrences : List String → List String
  | [] => []
  | x :: xs => x :: (firstOccurrences xs).filter (fun y => y != x)

/-- The identifiers of the clients that the rows reference, row by row; a row
without profile references none. -/
def referencedClients (data : List ClientRow) : List String :=
  data.filterMap (fun row => row.profiles.map (fun client => client.id))

/-- The service names of the rows, in row order. -/
def serviceNames (appointments : List CompletedAppointment) : List String :=
  appointments.map rowServiceName

/-- The total revenue of a service: the sum of the prices of the rows that name it. -/
def serviceRevenue (appointments : List CompletedAppointment) (name : String) : ℚ :=
  ((appointments.filter (fun a => rowServiceName a = name)).map rowPrice).sum

/-- The number of rows that name a service. -/
def serviceVisits (appointments : List CompletedAppointment) (name : String) : Nat :=
  (appointments.filter (fun a => rowServiceName a = name)).length

/-- A zone is exact in the daytime when a local time from 9:00 to before 17:00
that is written is read back unchanged: no clock change skips a local time of
these hours.  Zones with a constant offset are exact in the daytime. -/
def TimeZone.DaytimeExact (tz : TimeZone) : Prop :=
  ∀ l : Int, 9 ≤ HourFromTime l → HourFromTime l < 17 → LocalTime tz (UTC tz l) = l

/-! ## Sample zones -/

/-- Mountain Standard Time without summer time (America/Phoenix): UTC-7. -/
def phoenix : TimeZone := TimeZone.fixed (-420)

/-- Pacific Time under the rules of 2024 (America/Los_Angeles): UTC-8, and UTC-7
from 2024-03-10T10:00Z to 2024-11-03T09:00Z. -/
def losAngeles2024 : TimeZone := TimeZone.summer (-480) 1710064800000 1730624400000

/-- British time under the rules of 2024 (Europe/London): UTC, and UTC+1 from
2024-03-31T01:00Z to 2024-10-27T01:00Z. -/
def london2024 : TimeZone := TimeZone.summer 0 1711846800000 1729990800000

/-- Japan Standard Time (Asia/Tokyo): UTC+9, no summer time. -/
def tokyo : TimeZone := TimeZone.fixed 540

/-! ## Sample data -/

/-- Rows of the appointment query: John twice and Michael once, and a row
without profile. -/
def sampleClientRows : List ClientRow :=
  [⟨some "client-2", some ⟨"client-2", "Michael", "Johnson", "michael@example.com", "555"⟩⟩,
   ⟨some "client-1", some ⟨"client-1", "John", "Smith", "john@example.com", "555"⟩⟩,
   ⟨none, none⟩,
   ⟨some "client-2", some ⟨"client-2", "Michael", "Johnson", "michael@example.com", "555"⟩⟩,
   ⟨some "client-2", some ⟨"client-2", "Michael", "Johnson", "michael@example.com", "555"⟩⟩]


/-- A booking of the 30-minute haircut for 17:00 on 2024-03-04. -/
def sampleEveningBooking : NewAppointment where
  client_id := "client-1"
  service_id := "1"
  date := "2024-03-04"
  time := "17:00"
  duration := 30
  notes := ""


/-- The services of the test barber (`mockServices`). -/
def mockServices : List Service :=
  [⟨"1", "Haircut", 30, 25⟩, ⟨"2", "Beard Trim", 15, 15⟩, ⟨"3", "Full Service", 45, 40⟩,
   ⟨"4", "Hair Coloring", 90, 60⟩, ⟨"5", "Kids Cut", 20, 18⟩]

/-- A booking of the 90-minute hair colouring for 01:30 on 2024-03-10, the night
the clocks go forward in Pacific Time. -/
def sampleNightBooking : NewAppointment where
  client_id := "client-1"
  service_id := "4"
  date := "2024-03-10"
  time := "01:30"
  duration := 30
  notes := ""

/-- A booking of the 30-minute haircut for 09:00 on 2024-03-04. -/
def sampleMorningBooking : NewAppointment where
  client_id := "client-1"
  service_id := "1"
  date := "2024-03-04"
  time := "09:00"
  duration := 30
  notes := ""


/-- A haircut on 2024-03-04 from 09:00 to 09:30 UTC. -/
def sampleHaircut : Appointment where
  id := "apt-1"
  client_id := "client-1"
  service_id := "1"
  start_time := 1709542800000
  end_time := 1709544600000
  status := "scheduled"
  notes := ""

/-- A beard trim on 2024-03-04 from 09:00 to 09:15 UTC, the same slot as
`sampleHaircut`. -/
def sampleBeardTrim : Appointment where
  id := "apt-2"
  client_id := "client-2"
  service_id := "2"
  start_time := 1709542800000
  end_time := 1709543700000
  status := "scheduled"
  notes := ""

/-- A haircut on Sunday 2024-03-10 from 17:00 to 17:45 UTC, which is 10:00 to
10:45 in Pacific Daylight Time. -/
def sampleSundayCut : Appointment where
  id := "apt-3"
  client_id := "client-3"
  service_id := "3"
  start_time := 1710090000000
  end_time := 1710092700000
  status := "scheduled"
  notes := ""

/-- An appointment on 2024-03-04 from 09:10 to 09:40 UTC, off the half-hour
grid. -/
def sampleOffSlot : Appointment where
  id := "apt-4"
  client_id := "client-4"
  service_id := "1"
  start_time := 1709543400000
  end_time := 1709545200000
  status := "scheduled"
  notes := ""

/-- Two completed appointments, one of them for a service named `constructor`. -/
def sampleInheritedNameRows : List CompletedAppointment :=
  [completedRow "Haircut" 25, completedRow "constructor" 30]

/-- One completed appointment whose service is missing. -/
def sampleUnpricedRows : List CompletedAppointment := [⟨1709568000000, none⟩]

/-- Three completed appointments for two services. -/
def sampleCompletedRows : List CompletedAppointment :=
  [completedRow "Haircut" 25, completedRow "Fade" 35, completedRow "Haircut" (25 / 2)]

/-- The clients that `fetchCalendarData` sets for a test barber. -/
def mockClients : List Profile :=
  [⟨"client-1", "John", "Smith", "john@example.com", "555-123-4567"⟩,
   ⟨"client-2", "Michael", "Johnson", "michael@example.com", "555-987-6543"⟩,
   ⟨"client-3", "Robert", "Williams", "robert@example.com", "555-456-7890"⟩,
   ⟨"client-4", "David", "Brown", "david@example.com", "555-789-0123"⟩,
   ⟨"client-5", "James", "Jones", "james@example.com", "555-321-6547"⟩]

/-- A sequence of draws in [0, 1): the hundredths 0.11, 0.48, 0.85, 0.22, .. -/
def sampleDraws (k : Nat) : ℚ := ((37 * k + 11) % 100 : Nat) / 100

/-! ## Binning: filter, order, stability -/

/-- The order the comparator induces is total. -/
theorem compareStart_total (a b : Appointment) :
    compareStart a b ≤ 0 ∨ compareStart b a ≤ 0 := by
  unfold compareStart; omega

/-- The order the comparator induces is transitive. -/
theorem compareStart_trans (a b c : Appointment) (h1 : compareStart a b ≤ 0)
    (h2 : compareStart b c ≤ 0) : compareStart a c ≤ 0 := by
  unfold compareStart at *; omega

/-- The sort rearranges its input. -/
theorem jsSort_perm {α : Type} (cmp : α → α → Int) (l : List α) :
    (jsSort cmp l).Perm l :=
  List.perm_insertionSort _ l

/-- A stable sort keeps the elements of one key class in input order: when the
comparator does not separate the elements satisfying `p`, selecting them after
the sort is the same as selecting them before. -/
theorem jsSort_filter_eq {α : Type} (cmp : α → α → Int) (p : α → Bool)
    (hp : ∀ a b, p a = true → p b = true → cmp a b ≤ 0) (l : List α) :
    (jsSort cmp l).filter p = l.filter p := by
  unfold jsSort
  have hsub : List.Sublist (l.filter p) (l.insertionSort (fun a b => cmp a b ≤ 0)) := by
    apply List.sublist_insertionSort
    · rw [List.pairwise_iff_forall_sublist]
      intro a b hab
      have ha : a ∈ l.filter p := hab.subset (by simp)
      have hb : b ∈ l.filter p := hab.subset (by simp)
      exact hp a b (List.mem_filter.mp ha).2 (List.mem_filter.mp hb).2
    · exact List.filter_sublist l
  have hsub2 : List.Sublist (l.filter p)
      ((l.insertionSort (fun a b => cmp a b ≤ 0)).filter p) := by
    have := hsub.filter p
    rwa [List.filter_filter, show (fun a => (p a && p a)) = p from by funext a; simp] at this
  have hlen : ((l.insertionSort (fun a b => cmp a b ≤ 0)).filter p).length
      = (l.filter p).length :=
    ((List.perm_insertionSort _ l).filter p).length_eq
  exact (hsub2.eq_of_length hlen.symm).symm

/-- The sort by start time yields a list in which every element starts no later
than every element after it. -/
theorem jsSort_compareStart_sorted (l : List Appointment) :
    (jsSort compareStart l).Pairwise (fun a b => a.start_time ≤ b.start_time) := by
  haveI : IsTotal Appointment (fun a b => compareStart a b ≤ 0) := ⟨compareStart_total⟩
  haveI : IsTrans Appointment (fun a b => compareStart a b ≤ 0) := ⟨compareStart_trans⟩
  have h := List.sorted_insertionSort (fun a b : Appointment => compareStart a b ≤ 0) l
  refine List.Pairwise.imp ?_ h
  intro a b hab
  unfold compareStart at hab
  omega

/-- The sort by start time leaves a list alone that is already in order. -/
theorem jsSort_compareStart_fixed (l : List Appointment)
    (h : l.Pairwise (fun a b => a.start_time ≤ b.start_time)) :
    jsSort compareStart l = l := by
  unfold jsSort
  apply List.Sorted.insertionSort_eq
  refine List.Pairwise.imp ?_ h
  intro a b hab
  unfold compareStart
  omega

/-- The bin of a day is a rearrangement of the appointments of that date. -/
theorem getAppointmentsForDay_perm (A : List Appointment) (d : String) :
    (getAppointmentsForDay A d).Perm
      (A.filter (fun apt => decide (isoDate apt.start_time = d))) :=
  jsSort_perm _ _

/-- C1: `getAppointmentsForDay(d)` returns exactly the appointments whose start
time, rendered as an ISO date, is the string `d`: every returned appointment is
one of the collection and has that date, every appointment of the collection
with that date is returned, and each is returned as often as it occurs in the
collection (never for another date). -/
theorem getAppointmentsForDay_exact (A : List Appointment) (d : String) :
    (∀ a ∈ getAppointmentsForDay A d, a ∈ A ∧ isoDate a.start_time = d) ∧
    (∀ a ∈ A, isoDate a.start_time = d → a ∈ getAppointmentsForDay A d) ∧
    (∀ a, (getAppointmentsForDay A d).count a
      = if isoDate a.start_time = d then A.count a else 0) := by
  have hperm := getAppointmentsForDay_perm A d
  refine ⟨?_, ?_, ?_⟩
  · intro a ha
    have := (hperm.mem_iff).mp ha
    simpa using this
  · intro a ha hd
    exact (hperm.mem_iff).mpr (by simpa using ⟨ha, hd⟩)
  · intro a
    rw [hperm.count_eq]
    by_cases h : isoDate a.start_time = d
    · rw [if_pos h]
      exact List.count_filter (by simpa using h)
    · rw [if_neg h]
      apply List.count_eq_zero_of_not_mem
      intro hmem
      exact h (by simpa using (List.mem_filter.mp hmem).2)

/-- C2: the list `getAppointmentsForDay(d)` returns is in ascending order of
start time: every element starts no later than every element after it, in
particular than its successor. -/
theorem getAppointmentsForDay_sorted (A : List Appointment) (d : String) :
    (getAppointmentsForDay A d).Pairwise (fun a b => a.start_time ≤ b.start_time) ∧
    (getAppointmentsForDay A d).Chain' (fun a b => a.start_time ≤ b.start_time) := by
  have h := jsSort_compareStart_sorted
    (A.filter (fun apt => decide (isoDate apt.start_time = d)))
  exact ⟨h, List.Pairwise.chain' h⟩

/-- C3: `getAppointmentsForDay` keeps ties in input order: for every start time
`s`, the returned appointments starting at `s` are the appointments of the
collection on that day starting at `s`, in the order of the collection.  The two
sample appointments on 2024-03-04 at 09:00 are both returned, in input order,
whichever comes first in the collection. -/
theorem getAppointmentsForDay_stable :
    (∀ (A : List Appointment) (d : String) (s : Int),
      (getAppointmentsForDay A d).filter (fun a => decide (a.start_time = s))
        = A.filter (fun a => decide (isoDate a.start_time = d) && decide (a.start_time = s))) ∧
    getAppointmentsForDay [sampleHaircut, sampleBeardTrim] "2024-03-04"
      = [sampleHaircut, sampleBeardTrim] ∧
    getAppointmentsForDay [sampleBeardTrim, sampleHaircut] "2024-03-04"
      = [sampleBeardTrim, sampleHaircut] := by
  refine ⟨?_, by decide, by decide⟩
  intro A d s
  unfold getAppointmentsForDay
  rw [jsSort_filter_eq, List.filter_filter]
  · congr 1
    funext a
    exact Bool.and_comm _ _
  · intro a b ha hb
    have ha' : a.start_time = s := by simpa using ha
    have hb' : b.start_time = s := by simpa using hb
    unfold compareStart
    omega

/-- C4: `getAppointmentsForDay` is idempotent: binning the bin of a day for
that same day gives the bin back, element for element. -/
theorem getAppointmentsForDay_idempotent (A : List Appointment) (d : String) :
    getAppointmentsForDay (getAppointmentsForDay A d) d = getAppointmentsForDay A d := by
  have hall : ∀ a ∈ getAppointmentsForDay A d,
      (fun apt : Appointment => decide (isoDate apt.start_time = d)) a = true := by
    intro a ha
    exact (List.mem_filter.mp ((getAppointmentsForDay_perm A d).mem_iff.mp ha)).2
  have hfilter : (getAppointmentsForDay A d).filter
      (fun apt => decide (isoDate apt.start_time = d)) = getAppointmentsForDay A d :=
    List.filter_eq_self.mpr hall
  show jsSort compareStart ((getAppointmentsForDay A d).filter
      (fun apt => decide (isoDate apt.start_time = d))) = getAppointmentsForDay A d
  rw [hfilter]
  exact jsSort_compareStart_fixed _ (jsSort_compareStart_sorted _)

/-! ## Calendar arithmetic -/

theorem DayFromYear_succ (y : Int) : DayFromYear (y + 1) = DayFromYear y + DaysInYear y := by
  unfold DayFromYear DaysInYear
  split_ifs <;> omega

theorem DaysInYear_cases (y : Int) : DaysInYear y = 365 ∨ DaysInYear y = 366 := by
  unfold DaysInYear
  split_ifs <;> simp

theorem DayFromYear_lt (y z : Int) (h : y < z) : DayFromYear y < DayFromYear z := by
  unfold DayFromYear
  omega

theorem YearFromTime_spec (t : Int) :
    DayFromYear (YearFromTime t) ≤ Day t ∧ Day t < DayFromYear (YearFromTime t + 1) := by
  unfold YearFromTime
  generalize Day t = d
  simp only
  split_ifs with h1 h2
  · rw [sub_add_cancel]
    refine ⟨?_, h1⟩
    unfold DayFromYear at *
    omega
  · refine ⟨h2, ?_⟩
    unfold DayFromYear at *
    omega
  · constructor <;> omega

theorem YearFromTime_unique (t y : Int) (h1 : DayFromYear y ≤ Day t)
    (h2 : Day t < DayFromYear (y + 1)) : YearFromTime t = y := by
  have hs := YearFromTime_spec t
  by_contra hne
  rcases lt_or_gt_of_ne hne with h | h
  · have h3 : YearFromTime t + 1 ≤ y := h
    rcases eq_or_lt_of_le h3 with e | l
    · rw [e] at hs; omega
    · have := DayFromYear_lt _ _ l; omega
  · have h3 : y + 1 ≤ YearFromTime t := h
    rcases eq_or_lt_of_le h3 with e | l
    · rw [← e] at hs; omega
    · have := DayFromYear_lt _ _ l; omega

theorem ite_elim {c : Prop} [Decidable c] (P : Int → Prop) (a b : Int)
    (h1 : c → P a) (h2 : ¬c → P b) : P (if c then a else b) := by
  by_cases h : c
  · rw [if_pos h]; exact h1 h
  · rw [if_neg h]; exact h2 h

theorem monthOfYearDay_spec (l d : Int) : MonthSpec l d (monthOfYearDay l d) := by
  unfold monthOfYearDay
  repeat' (first | apply ite_elim (MonthSpec l d) <;> intro _)
  all_goals unfold MonthSpec
  all_goals ((repeat (first | exact Or.inl (by omega) | apply Or.inr)); try omega)

theorem MonthFromTime_range (t : Int) : 0 ≤ MonthFromTime t ∧ MonthFromTime t ≤ 11 := by
  have h := monthOfYearDay_spec (InLeapYear t) (DayWithinYear t)
  unfold MonthSpec at h
  unfold MonthFromTime
  omega

theorem daysBeforeMonth_date (l d : Int) :
    daysBeforeMonth l (monthOfYearDay l d) + dateOfYearDay (monthOfYearDay l d) l d - 1 = d := by
  have h := monthOfYearDay_spec l d
  unfold MonthSpec at h
  rcases h with h | h | h | h | h | h | h | h | h | h | h | h
  all_goals
    have hm := h.2
    try have hm := hm.2
    rw [hm]
    simp [daysBeforeMonth, dateOfYearDay]
  all_goals omega

theorem InLeapYear_eq (t : Int) :
    InLeapYear t = if DaysInYear (YearFromTime t) = 366 then 1 else 0 := rfl

theorem MakeDay_fields (t dt : Int) :
    MakeDay (YearFromTime t) (MonthFromTime t) dt = Day t + dt - DateFromTime t := by
  have hm := MonthFromTime_range t
  have h1 : MonthFromTime t / 12 = 0 := by omega
  have h2 : MonthFromTime t % 12 = MonthFromTime t := by omega
  unfold MakeDay
  simp only [h1, h2, add_zero]
  have h3 := daysBeforeMonth_date (InLeapYear t) (DayWithinYear t)
  rw [← InLeapYear_eq]
  unfold DateFromTime
  unfold MonthFromTime at *
  have h5 : DayWithinYear t = Day t - DayFromYear (YearFromTime t) := rfl
  omega

theorem MonthSpec_ne_of_add (l d k m n : Int) (hk : 31 ≤ k) (hd : 0 ≤ d) (hl0 : 0 ≤ l)
    (hl1 : l ≤ 1) (hdk : d + k < 365 + l) (h : MonthSpec l d m)
    (h2 : MonthSpec l (d + k) n) : n ≠ m := by
  unfold MonthSpec at h h2
  rcases h with h | h | h | h | h | h | h | h | h | h | h | h <;>
  rcases h2 with h2 | h2 | h2 | h2 | h2 | h2 | h2 | h2 | h2 | h2 | h2 | h2 <;>
  omega

theorem MonthSpec_late (l d m : Int) (hl0 : 0 ≤ l) (h : MonthSpec l d m) (hd : 304 + l ≤ d) :
    10 ≤ m := by
  unfold MonthSpec at h
  rcases h with h | h | h | h | h | h | h | h | h | h | h | h <;> omega

theorem MonthSpec_early (l d m : Int) (h : MonthSpec l d m) (hd : d < 59 + l) :
    m ≤ 1 := by
  unfold MonthSpec at h
  rcases h with h | h | h | h | h | h | h | h | h | h | h | h <;> omega

theorem MonthFromTime_ne_of_Day (t u : Int) (h : Day u = Day t + 31 ∨ Day u = Day t + 32) :
    MonthFromTime u ≠ MonthFromTime t := by
  have hs := YearFromTime_spec t
  have hsucc := DayFromYear_succ (YearFromTime t)
  have hsucc2 := DayFromYear_succ (YearFromTime t + 1)
  have hc := DaysInYear_cases (YearFromTime t)
  have hc2 := DaysInYear_cases (YearFromTime t + 1)
  have ht := monthOfYearDay_spec (InLeapYear t) (DayWithinYear t)
  have hu := monthOfYearDay_spec (InLeapYear u) (DayWithinYear u)
  have hlu : 0 ≤ InLeapYear u := by
    unfold InLeapYear; split_ifs <;> simp
  have hlt : 0 ≤ InLeapYear t ∧ InLeapYear t ≤ 1 := by
    unfold InLeapYear; split_ifs <;> simp
  have hlt2 : InLeapYear t = DaysInYear (YearFromTime t) - 365 := by
    unfold InLeapYear; split_ifs <;> omega
  have hdt : DayWithinYear t = Day t - DayFromYear (YearFromTime t) := rfl
  have hdu : DayWithinYear u = Day u - DayFromYear (YearFromTime u) := rfl
  unfold MonthFromTime
  by_cases hy : Day u < DayFromYear (YearFromTime t + 1)
  · have hyu : YearFromTime u = YearFromTime t :=
      YearFromTime_unique u _ (by omega) hy
    have hlu2 : InLeapYear u = InLeapYear t := by
      unfold InLeapYear; rw [hyu]
    rw [hyu] at hdu
    rw [hlu2] at hu ⊢
    have hd : DayWithinYear u = DayWithinYear t + (Day u - Day t) := by omega
    rw [hd] at hu ⊢
    exact MonthSpec_ne_of_add _ _ _ _ _ (by omega) (by omega) hlt.1 hlt.2 (by omega) ht hu
  · have hyu : YearFromTime u = YearFromTime t + 1 :=
      YearFromTime_unique u _ (by omega) (by omega)
    rw [hyu] at hdu
    have h1 := MonthSpec_late _ _ _ hlt.1 ht (by omega)
    have h2 := MonthSpec_early _ _ _ hu (by omega)
    omega

theorem fixed_regular (minutes : Int) : (TimeZone.fixed minutes).Regular := by
  intro l
  simp [LocalTime, UTC, TimeZone.fixed]

theorem summer_regular (std start stop : Int) : (TimeZone.summer std start stop).Regular := by
  intro l
  simp only [LocalTime, UTC, TimeZone.summer, Day, msPerDay, msPerHour, msPerMinute]
  split_ifs <;> omega

theorem setDate_getDate_add (tz : TimeZone) (t k : Int) :
    setDate tz t (getDate tz t + k) = UTC tz (LocalTime tz t + k * msPerDay) := by
  unfold setDate getDate
  simp only
  rw [MakeDay_fields]
  congr 1
  unfold MakeDate TimeWithinDay Day msPerDay
  omega

theorem Day_add_days (t k : Int) : Day (t + k * msPerDay) = Day t + k := by
  unfold Day msPerDay
  omega

theorem monthLoop_some (tz : TimeZone) (hr : tz.Regular) (month hi : Int)
    (hhi : ∀ u, Day u = hi ∨ Day u = hi + 1 → MonthFromTime u ≠ month) :
    ∀ (fuel : Nat) (s : Int) (days : List Cell),
      Day (LocalTime tz s) ≤ hi + 1 → hi - Day (LocalTime tz s) < fuel → 0 < fuel →
      ∃ r, monthLoop tz month fuel s days = some r ∧ days.length ≤ r.length := by
  intro fuel
  induction fuel with
  | zero => intro s days _ _ h0; omega
  | succ n ih =>
    intro s days h1 h2 _
    unfold monthLoop
    by_cases hm : getMonth tz s = month
    · rw [if_pos hm]
      have hlt : Day (LocalTime tz s) < hi := by
        by_contra hcon
        exact hhi (LocalTime tz s) (by omega) hm
      have hstep := setDate_getDate_add tz s 1
      have hreg := hr (LocalTime tz s + 1 * msPerDay)
      rw [Day_add_days] at hreg
      rw [← hstep] at hreg
      obtain ⟨r, hr1, hr2⟩ := ih (setDate tz s (getDate tz s + 1)) (days ++ [cellOf tz s])
        (by omega) (by omega) (by omega)
      exact ⟨r, hr1, by simp at hr2; omega⟩
    · rw [if_neg hm]
      exact ⟨days, rfl, le_refl _⟩

/-! ## Grid generation -/

/-- C6: in a regular zone `generateCalendarDays` returns, for every reference
date and each of the views day, week and month, a list of cells that is not
empty; the week view has exactly 7 cells and the day view exactly 1.  The month
loop ends within the 32 tests of its condition that the model grants. -/
theorem generateCalendarDays_nonempty (tz : TimeZone) (hr : tz.Regular) (D : Int)
    (V : String) (hV : V = "day" ∨ V = "week" ∨ V = "month") :
    ∃ days, generateCalendarDays tz D V = some days ∧ days ≠ [] ∧
      (V = "week" → days.length = 7) ∧ (V = "day" → days.length = 1) := by
  rcases hV with h | h | h
  · subst h
    exact ⟨[cellOf tz D], rfl, by simp, fun h => absurd h (by decide), fun _ => rfl⟩
  · subst h
    refine ⟨_, rfl, ?_, ?_, fun h => absurd h (by decide)⟩
    · simp [List.range_succ]
    · intro _; simp
  · subst h
    have hstep := setDate_getDate_add tz (setDate tz D 1) 1
    have hreg := hr (LocalTime tz (setDate tz D 1) + 1 * msPerDay)
    rw [Day_add_days, ← hstep] at hreg
    obtain ⟨r, hr1, hr2⟩ := monthLoop_some tz hr (getMonth tz (setDate tz D 1))
      (Day (LocalTime tz (setDate tz D 1)) + 31)
      (fun u hu => MonthFromTime_ne_of_Day (LocalTime tz (setDate tz D 1)) u (by omega))
      31 (setDate tz (setDate tz D 1) (getDate tz (setDate tz D 1) + 1))
      ([] ++ [cellOf tz (setDate tz D 1)]) (by omega) (by omega) (by omega)
    refine ⟨r, ?_, ?_, fun h => absurd h (by decide), fun h => absurd h (by decide)⟩
    · have hv1 : ¬ ("month" = "day") := by decide
      have hv2 : ¬ ("month" = "week") := by decide
      unfold generateCalendarDays
      simp only [hv1, hv2, if_false, if_true, monthFuel]
      unfold monthLoop
      rw [if_pos rfl]
      exact hr1
    · intro hnil
      rw [hnil] at hr2
      simp at hr2

/-- Witness for C6 in Pacific Time: the month grid for 2024-03-15T23:30Z. -/
theorem generateCalendarDays_nonempty_witness :
    losAngeles2024.Regular ∧ ("month" = "day" ∨ "month" = "week" ∨ "month" = "month") ∧
    ∃ days, generateCalendarDays losAngeles2024 1710545400000 "month" = some days ∧
      days ≠ [] ∧ ("month" = "week" → days.length = 7) ∧
      ("month" = "day" → days.length = 1) :=
  ⟨summer_regular _ _ _, Or.inr (Or.inr rfl),
    generateCalendarDays_nonempty losAngeles2024 (summer_regular _ _ _) 1710545400000 "month"
      (Or.inr (Or.inr rfl))⟩

/-! ## Grid generation outside UTC

The cells are stepped through the local calendar (`getDay`, `getDate`,
`setDate`, `getMonth`) while their `date` is the UTC date of `toISOString`.
The evaluations below show what that yields in zones other than UTC. -/

/-- C5: in Pacific Time the month grid for 2024-03-15T23:30Z (16:30 local) holds
two cells, at positions 8 and 9 with day numbers 9 and 10, whose bins both
return the appointment of 2024-03-10T17:00Z: the appointment appears in two
cells of one grid. -/
theorem month_grid_duplicates_appointment :
    (generateCalendarDays losAngeles2024 1710545400000 "month").map (fun days =>
      (days[8]?.map (fun c => (c.dayNumber, getAppointmentsForDay [sampleSundayCut] c.date)),
       days[9]?.map (fun c => (c.dayNumber, getAppointmentsForDay [sampleSundayCut] c.date))))
      = some (some (9, [sampleSundayCut]), some (10, [sampleSundayCut])) := by
  decide

/-- C7: in Phoenix the week grid for 2024-03-05T03:00Z (Monday 2024-03-04, 20:00
local) starts with a cell named `Sun` with day number 3 whose date is
`2024-03-04`, and 2024-03-04 is a Monday (weekday index 1), not a Sunday.  In
UTC the same reference date gives a first cell dated Sunday `2024-03-03`. -/
theorem week_grid_first_cell_monday :
    (generateCalendarDays phoenix 1709607600000 "week").map (fun days => days.head?)
      = some (some ⟨"2024-03-04", "Sun", 3⟩) ∧
    (parseIsoDate "2024-03-04").map WeekDay = some 1 ∧
    (generateCalendarDays TimeZone.utc 1709607600000 "week").map (fun days => days.head?)
      = some (some ⟨"2024-03-03", "Sun", 3⟩) ∧
    (parseIsoDate "2024-03-03").map WeekDay = some 0 := by
  decide

/-- C8: in British time the week grid for 2024-04-03T23:30Z (Thursday
2024-04-04, 00:30 local) carries the date `2024-03-31` in both of its first two
cells, named `Sun` and `Mon` with day numbers 31 and 1: the dates of cell 0 and
cell 1 are not one day apart, and no cell is dated Saturday `2024-04-06`. -/
theorem week_grid_repeats_date :
    (generateCalendarDays london2024 1712187000000 "week").map (fun days =>
        (days.take 2, days.map Cell.date))
      = some ([⟨"2024-03-31", "Sun", 31⟩, ⟨"2024-03-31", "Mon", 1⟩],
        ["2024-03-31", "2024-03-31", "2024-04-01", "2024-04-02", "2024-04-03",
          "2024-04-04", "2024-04-05"]) := by
  decide

/-- C9: in Phoenix the month grid for 2024-03-16T03:00Z (2024-03-15, 20:00
local) has 31 cells, but the first, with day number 1, is dated `2024-03-02`,
the last, with day number 31, is dated `2024-04-01`, and no cell is dated
`2024-03-01`. -/
theorem month_grid_shifted_dates :
    (generateCalendarDays phoenix 1710558000000 "month").map (fun days =>
      (days.length, days.head?, days.getLast?, decide ("2024-03-01" ∈ days.map Cell.date)))
      = some (31, some ⟨"2024-03-02", "Fri", 1⟩, some ⟨"2024-04-01", "Sun", 31⟩, false) := by
  decide

/-- C10: in Phoenix the month grid for 2024-03-15T19:00Z (2024-03-15, noon
local) starts with the cell of Friday 2024-03-01, yet 4 empty cells are rendered
before it, although the first of the month has weekday index 5, locally and as a
date: the first day cell lands in the `Thu` column. -/
theorem month_padding_off_by_one :
    (generateCalendarDays phoenix 1710529200000 "month").map (fun days =>
      (days.head?, monthPadding phoenix days))
      = some (some ⟨"2024-03-01", "Fri", 1⟩, 4) ∧
    getDay phoenix (setDate phoenix 1710529200000 1) = 5 ∧
    (parseIsoDate "2024-03-01").map WeekDay = some 5 := by
  decide

/-! ## Time slots -/

theorem digitChar_toNat (n : Nat) : (digitChar n).toNat = 48 + n % 10 := by
  unfold digitChar
  have h : n % 10 < 10 := Nat.mod_lt _ (by decide)
  generalize n % 10 = d at h
  interval_cases d <;> rfl

theorem padDigits_two (n : Nat) : padDigits 2 n = [digitChar (n / 10), digitChar n] := by
  simp [padDigits]

theorem padDigits_two_inj (a b : Nat) (ha : a < 100) (hb : b < 100)
    (h : padDigits 2 a = padDigits 2 b) : a = b := by
  rw [padDigits_two, padDigits_two] at h
  have h1 : digitChar (a / 10) = digitChar (b / 10) := by injection h
  have h2 : digitChar a = digitChar b := by
    injection h with _ h'
    injection h'
  have h3 := congrArg Char.toNat h1
  have h4 := congrArg Char.toNat h2
  rw [digitChar_toNat, digitChar_toNat] at h3 h4
  omega

theorem padStart2_eq_padDigits : ∀ n < 100, padStart2 n = padDigits 2 n := by
  decide

theorem HourFromTime_range (t : Int) : 0 ≤ HourFromTime t ∧ HourFromTime t < 24 := by
  unfold HourFromTime; omega

theorem MinFromTime_range (t : Int) : 0 ≤ MinFromTime t ∧ MinFromTime t < 60 := by
  unfold MinFromTime; omega

/-- The local `HH:mm` text equals the label of hour `h` and minute `m` exactly
when the local hour is `h` and the local minute is `m`. -/
theorem timeStringPrefix_eq_slotLabel (tz : TimeZone) (t : Int) (h m : Nat) (hh : h < 100)
    (hm : m < 100) :
    timeStringPrefix tz t = slotLabel h m ↔
      HourFromTime (LocalTime tz t) = h ∧ MinFromTime (LocalTime tz t) = m := by
  have hH := HourFromTime_range (LocalTime tz t)
  have hM := MinFromTime_range (LocalTime tz t)
  unfold timeStringPrefix slotLabel
  rw [padStart2_eq_padDigits h hh, padStart2_eq_padDigits m hm]
  constructor
  · intro heq
    have hd : padDigits 2 (HourFromTime (LocalTime tz t)).toNat ++ [':']
        ++ padDigits 2 (MinFromTime (LocalTime tz t)).toNat
        = padDigits 2 h ++ [':'] ++ padDigits 2 m := by
      injection heq
    rw [padDigits_two, padDigits_two, padDigits_two, padDigits_two] at hd
    simp only [List.cons_append, List.nil_append, List.cons.injEq, and_true] at hd
    obtain ⟨h1, h2, -, h3, h4⟩ := hd
    have e1 : (HourFromTime (LocalTime tz t)).toNat = h := by
      apply padDigits_two_inj _ _ (by omega) hh
      rw [padDigits_two, padDigits_two, h1, h2]
    have e2 : (MinFromTime (LocalTime tz t)).toNat = m := by
      apply padDigits_two_inj _ _ (by omega) hm
      rw [padDigits_two, padDigits_two, h3, h4]
    omega
  · rintro ⟨e1, e2⟩
    rw [e1, e2]
    simp

theorem mem_generateTimeSlots (s : String) (hs : s ∈ generateTimeSlots) :
    ∃ h m : Nat, 8 ≤ h ∧ h < 20 ∧ (m = 0 ∨ m = 30) ∧ s = slotLabel h m := by
  unfold generateTimeSlots at hs
  rw [List.mem_flatMap] at hs
  obtain ⟨h, hh, hs⟩ := hs
  rw [List.mem_map] at hs
  obtain ⟨m, hm, rfl⟩ := hs
  rw [List.mem_range'] at hh hm
  obtain ⟨i, hi, rfl⟩ := hh
  obtain ⟨j, hj, rfl⟩ := hm
  exact ⟨8 + 1 * i, 0 + 30 * j, by omega, by omega, by omega, rfl⟩

/-- C11: `generateTimeSlots` yields the 24 labels `08:00`, `08:30`, .., `19:30`:
each has five characters, the first is `08:00` and the last `19:30`, they
increase strictly as strings, and label `i` denotes minute `480 + 30 i` of the
day, so each label denotes the time 30 minutes after the one before. -/
theorem generateTimeSlots_spec :
    generateTimeSlots = ["08:00", "08:30", "09:00", "09:30", "10:00", "10:30", "11:00",
      "11:30", "12:00", "12:30", "13:00", "13:30", "14:00", "14:30", "15:00", "15:30",
      "16:00", "16:30", "17:00", "17:30", "18:00", "18:30", "19:00", "19:30"] ∧
    generateTimeSlots.length = 24 ∧
    (∀ s ∈ generateTimeSlots, s.length = 5) ∧
    generateTimeSlots.head? = some "08:00" ∧ generateTimeSlots.getLast? = some "19:30" ∧
    generateTimeSlots.Pairwise (fun a b => a < b) ∧
    generateTimeSlots.map labelMinutes
      = (List.range 24).map (fun i => some (480 + 30 * (i : Int))) := by
  refine ⟨by decide, by decide, by decide, by decide, by decide, ?_, by decide⟩
  exact List.Pairwise.imp (fun h => String.lt_iff_toList_lt.mpr h)
    (by decide : generateTimeSlots.Pairwise (fun a b => a.toList < b.toList))

/-- C12: the slot filter returns exactly the appointments of the day sequence
whose local `HH:mm` text equals the slot label, in the order of the day
sequence: the result is a sublist of the day sequence, an appointment is in it
exactly when it is in the day sequence with that text, as often as there, and
for the label of hour `h` and minute `m` that means local hour `h` and local
minute `m`.  The two sample appointments of 2024-03-04 at 09:00 are both
returned for slot `09:00`, in their order. -/
theorem binByTimeSlot_exact :
    (∀ (tz : TimeZone) (l : List Appointment) (s : String),
      List.Sublist (binByTimeSlot tz l s) l ∧
      (∀ a, a ∈ binByTimeSlot tz l s ↔ a ∈ l ∧ timeStringPrefix tz a.start_time = s) ∧
      (∀ a, (binByTimeSlot tz l s).count a
        = if timeStringPrefix tz a.start_time = s then l.count a else 0)) ∧
    (∀ (tz : TimeZone) (l : List Appointment) (h m : Nat), h < 100 → m < 100 →
      ∀ a, a ∈ binByTimeSlot tz l (slotLabel h m) ↔
        a ∈ l ∧ HourFromTime (LocalTime tz a.start_time) = h ∧
          MinFromTime (LocalTime tz a.start_time) = m) ∧
    binByTimeSlot TimeZone.utc
      (getAppointmentsForDay [sampleHaircut, sampleBeardTrim] "2024-03-04") "09:00"
      = [sampleHaircut, sampleBeardTrim] ∧
    binByTimeSlot TimeZone.utc
      (getAppointmentsForDay [sampleHaircut, sampleBeardTrim] "2024-03-04") "09:30" = [] := by
  refine ⟨?_, ?_, by decide, by decide⟩
  · intro tz l s
    refine ⟨List.filter_sublist l, ?_, ?_⟩
    · intro a
      simp [binByTimeSlot, List.mem_filter]
    · intro a
      unfold binByTimeSlot
      by_cases h : timeStringPrefix tz a.start_time = s
      · rw [if_pos h]
        exact List.count_filter (by simpa using h)
      · rw [if_neg h]
        apply List.count_eq_zero_of_not_mem
        intro hmem
        exact h (by simpa using (List.mem_filter.mp hmem).2)
  · intro tz l h m hh hm a
    simp only [binByTimeSlot, List.mem_filter, decide_eq_true_eq]
    rw [timeStringPrefix_eq_slotLabel tz _ h m hh hm]

/-- C13: an appointment returned by the slot filter for a generated label
starts, in local time, at minute 0 or 30 of an hour from 8 to 19, and the label
is the one of that hour and minute; so an appointment whose local minute is
neither 0 nor 30 is returned for no generated label.  The sample appointment of
09:10 is returned for none of the 24 labels, in particular neither for `09:00`
nor for `09:30`: nothing is snapped to a slot. -/
theorem binByTimeSlot_aligned :
    (∀ (tz : TimeZone) (l : List Appointment) (s : String) (a : Appointment),
      s ∈ generateTimeSlots → a ∈ binByTimeSlot tz l s →
        (MinFromTime (LocalTime tz a.start_time) = 0 ∨
          MinFromTime (LocalTime tz a.start_time) = 30) ∧
        8 ≤ HourFromTime (LocalTime tz a.start_time) ∧
        HourFromTime (LocalTime tz a.start_time) < 20 ∧
        s = slotLabel (HourFromTime (LocalTime tz a.start_time)).toNat
          (MinFromTime (LocalTime tz a.start_time)).toNat) ∧
    (∀ (tz : TimeZone) (l : List Appointment) (a : Appointment),
      MinFromTime (LocalTime tz a.start_time) ≠ 0 →
      MinFromTime (LocalTime tz a.start_time) ≠ 30 →
        ∀ s ∈ generateTimeSlots, a ∉ binByTimeSlot tz l s) ∧
    generateTimeSlots.map (fun s => binByTimeSlot TimeZone.utc [sampleOffSlot] s)
      = List.replicate 24 [] ∧
    binByTimeSlot TimeZone.utc [sampleOffSlot] "09:00" = [] ∧
    binByTimeSlot TimeZone.utc [sampleOffSlot] "09:30" = [] ∧
    timeStringPrefix TimeZone.utc sampleOffSlot.start_time = "09:10" := by
  have key : ∀ (tz : TimeZone) (l : List Appointment) (s : String) (a : Appointment),
      s ∈ generateTimeSlots → a ∈ binByTimeSlot tz l s →
        (MinFromTime (LocalTime tz a.start_time) = 0 ∨
          MinFromTime (LocalTime tz a.start_time) = 30) ∧
        8 ≤ HourFromTime (LocalTime tz a.start_time) ∧
        HourFromTime (LocalTime tz a.start_time) < 20 ∧
        s = slotLabel (HourFromTime (LocalTime tz a.start_time)).toNat
          (MinFromTime (LocalTime tz a.start_time)).toNat := by
    intro tz l s a hs ha
    obtain ⟨h, m, h8, h20, hm, rfl⟩ := mem_generateTimeSlots s hs
    have hpre : timeStringPrefix tz a.start_time = slotLabel h m := by
      simpa [binByTimeSlot] using (List.mem_filter.mp ha).2
    obtain ⟨e1, e2⟩ :=
      (timeStringPrefix_eq_slotLabel tz _ h m (by omega) (by omega)).mp hpre
    refine ⟨by omega, by omega, by omega, ?_⟩
    rw [e1, e2]
    simp
  refine ⟨key, ?_, by decide, by decide, by decide, by decide⟩
  intro tz l a h0 h30 s hs ha
  have := (key tz l s a hs ha).1
  omega

/-! ## Status colours -/

/-- C17: `getStatusColor` is total and maps `completed` to `#4ade80` (green),
`cancelled` to `#f87171` (red), `no-show` to `#f97316` (orange) and every other
input to `#60a5fa` (blue), among them `scheduled`, an unrecognised value and a
missing status. -/
theorem getStatusColor_spec :
    getStatusColor (some "completed") = "#4ade80" ∧
    getStatusColor (some "cancelled") = "#f87171" ∧
    getStatusColor (some "no-show") = "#f97316" ∧
    (∀ status : Option String, status ≠ some "completed" → status ≠ some "cancelled" →
      status ≠ some "no-show" → getStatusColor status = "#60a5fa") ∧
    getStatusColor (some "scheduled") = "#60a5fa" ∧
    getStatusColor (some "unrecognized-value") = "#60a5fa" ∧
    getStatusColor none = "#60a5fa" := by
  refine ⟨by decide, by decide, by decide, ?_, by decide, by decide, by decide⟩
  intro status h1 h2 h3
  simp [getStatusColor, h1, h2, h3]

/-! ## Navigation -/

theorem fixed_dayStable (minutes : Int) : (TimeZone.fixed minutes).DayStable := by
  intro l
  simp [LocalTime, UTC, TimeZone.fixed]

theorem losAngeles2024_dayStable : losAngeles2024.DayStable := by
  intro l
  simp only [losAngeles2024, LocalTime, UTC, TimeZone.summer, Day, msPerDay, msPerHour,
    msPerMinute]
  split_ifs <;> omega

theorem london2024_dayStable : london2024.DayStable := by
  intro l
  simp only [london2024, LocalTime, UTC, TimeZone.summer, Day, msPerDay, msPerHour,
    msPerMinute]
  split_ifs <;> omega

theorem Day_MakeDate (d time : Int) (h0 : 0 ≤ time) (h1 : time < msPerDay) :
    Day (MakeDate d time) = d := by
  unfold Day MakeDate msPerDay at *
  omega

theorem TimeWithinDay_range (t : Int) : 0 ≤ TimeWithinDay t ∧ TimeWithinDay t < msPerDay := by
  unfold TimeWithinDay msPerDay
  omega

/-- In a day-stable zone `setDate` to the current day of the month plus `k`
moves the local calendar day by `k`. -/
theorem Day_setDate_getDate_add (tz : TimeZone) (hs : tz.DayStable) (t k : Int) :
    Day (LocalTime tz (setDate tz t (getDate tz t + k))) = Day (LocalTime tz t) + k := by
  rw [setDate_getDate_add, hs, Day_add_days]

/-- In a zone with a constant offset `setDate` to the current day of the month
plus `k` adds `k` days to the time value. -/
theorem setDate_getDate_add_fixed (minutes t k : Int) :
    setDate (TimeZone.fixed minutes) t (getDate (TimeZone.fixed minutes) t + k)
      = t + k * msPerDay := by
  rw [setDate_getDate_add]
  simp [LocalTime, UTC, TimeZone.fixed]
  ring

theorem leapFlag_cases (y : Int) : leapFlag y = 0 ∨ leapFlag y = 1 := by
  unfold leapFlag; split_ifs <;> simp

theorem DaysInYear_leapFlag (y : Int) : DaysInYear y = 365 + leapFlag y := by
  have h := DaysInYear_cases y
  unfold leapFlag
  split_ifs <;> omega

/-- The calendar fields of a day that is given by year, month and day of the
month. -/
theorem fields_of_Day (t y m date : Int) (hm0 : 0 ≤ m) (hm1 : m ≤ 11) (hd0 : 1 ≤ date)
    (hd1 : date ≤ DaysInMonth y m)
    (hday : Day t = DayFromYear y + daysBeforeMonth (leapFlag y) m + date - 1) :
    YearFromTime t = y ∧ MonthFromTime t = m ∧ DateFromTime t = date := by
  have hl := leapFlag_cases y
  have hsucc := DayFromYear_succ y
  have hdiy := DaysInYear_leapFlag y
  have hcases : m = 0 ∨ m = 1 ∨ m = 2 ∨ m = 3 ∨ m = 4 ∨ m = 5 ∨ m = 6 ∨ m = 7 ∨ m = 8 ∨
      m = 9 ∨ m = 10 ∨ m = 11 := by omega
  have hy : YearFromTime t = y := by
    apply YearFromTime_unique
    · rcases hcases with h | h | h | h | h | h | h | h | h | h | h | h <;> subst h <;>
        simp [daysBeforeMonth] at hday <;> omega
    · rcases hcases with h | h | h | h | h | h | h | h | h | h | h | h <;> subst h <;>
        simp [daysBeforeMonth, DaysInMonth] at hday hd1 <;> omega
  have hleap : InLeapYear t = leapFlag y := by
    unfold InLeapYear leapFlag; rw [hy]
  have hw : DayWithinYear t = daysBeforeMonth (leapFlag y) m + date - 1 := by
    unfold DayWithinYear; rw [hy]; omega
  have hspec := monthOfYearDay_spec (leapFlag y) (daysBeforeMonth (leapFlag y) m + date - 1)
  have hmonth : MonthFromTime t = m := by
    unfold MonthFromTime
    rw [hleap, hw]
    unfold MonthSpec at hspec
    rcases hcases with h | h | h | h | h | h | h | h | h | h | h | h <;> subst h <;>
      simp [daysBeforeMonth, DaysInMonth] at hspec hd1 ⊢ <;> omega
  refine ⟨hy, hmonth, ?_⟩
  unfold DateFromTime
  rw [hmonth, hleap, hw]
  rcases hcases with h | h | h | h | h | h | h | h | h | h | h | h <;> subst h <;>
    simp [daysBeforeMonth, dateOfYearDay] <;> omega


theorem DateFromTime_range (t : Int) :
    1 ≤ DateFromTime t ∧ DateFromTime t ≤ 31 := by
  have hs := YearFromTime_spec t
  have hsucc := DayFromYear_succ (YearFromTime t)
  have hdiy := DaysInYear_leapFlag (YearFromTime t)
  have hl := leapFlag_cases (YearFromTime t)
  have hleap : InLeapYear t = leapFlag (YearFromTime t) := rfl
  have hw : DayWithinYear t = Day t - DayFromYear (YearFromTime t) := rfl
  have hspec := monthOfYearDay_spec (InLeapYear t) (DayWithinYear t)
  unfold DateFromTime MonthFromTime
  generalize monthOfYearDay (InLeapYear t) (DayWithinYear t) = m at hspec ⊢
  unfold MonthSpec at hspec
  rcases hspec with h | h | h | h | h | h | h | h | h | h | h | h
  all_goals
    have hm := h.2
    try have hm := hm.2
    subst hm
    simp [dateOfYearDay]
    omega

theorem MakeDay_eq (y m date : Int) :
    MakeDay y m date
      = DayFromYear (y + m / 12) + daysBeforeMonth (leapFlag (y + m / 12)) (m % 12) + date - 1 :=
  rfl

/-- The local calendar day that `setMonth` reaches in a day-stable zone. -/
theorem Day_setMonth (tz : TimeZone) (hs : tz.DayStable) (t m : Int) :
    Day (LocalTime tz (setMonth tz t m))
      = MakeDay (YearFromTime (LocalTime tz t)) m (DateFromTime (LocalTime tz t)) := by
  have hr := TimeWithinDay_range (LocalTime tz t)
  unfold setMonth
  simp only
  rw [hs, Day_MakeDate _ _ hr.1 hr.2]

theorem daysBeforeMonth_succ (y m : Int) (hm0 : 0 ≤ m) (hm1 : m < 11) :
    daysBeforeMonth (leapFlag y) (m + 1) = daysBeforeMonth (leapFlag y) m + DaysInMonth y m := by
  have hcases : m = 0 ∨ m = 1 ∨ m = 2 ∨ m = 3 ∨ m = 4 ∨ m = 5 ∨ m = 6 ∨ m = 7 ∨ m = 8 ∨
      m = 9 ∨ m = 10 := by omega
  rcases hcases with h | h | h | h | h | h | h | h | h | h | h <;> subst h <;>
    simp [daysBeforeMonth, DaysInMonth] <;> omega

theorem DaysInMonth_range (y m : Int) : 28 ≤ DaysInMonth y m ∧ DaysInMonth y m ≤ 31 := by
  have hl := leapFlag_cases y
  unfold DaysInMonth
  split_ifs <;> omega

theorem DaysInMonth_december (y : Int) : DaysInMonth y 11 = 31 := by
  simp [DaysInMonth]

/-- C14: in a day-stable zone `handleDateChange` moves the local calendar day
by `offset` days in day view and by `7 * offset` days in week view, for every
reference date and every offset, `+1` and `-1` among them; in a zone with a
constant offset the time value moves by exactly that many days.  Month and year
boundaries are crossed: from 31 December 2024 one day on is 1 January 2025, and
from 3 March 2024 a week back is 25 February 2024.  The `Date` in the state is
not written to: every `Date` object alive before the call keeps its time value,
and the result is a fresh object. -/
theorem handleDateChange_days (tz : TimeZone) (hs : tz.DayStable) (D offset : Int) :
    Day (LocalTime tz (handleDateChange tz D "day" offset)) = Day (LocalTime tz D) + offset ∧
    Day (LocalTime tz (handleDateChange tz D "week" offset))
      = Day (LocalTime tz D) + 7 * offset ∧
    (∀ minutes : Int,
      handleDateChange (TimeZone.fixed minutes) D "day" offset = D + offset * msPerDay ∧
      handleDateChange (TimeZone.fixed minutes) D "week" offset = D + 7 * offset * msPerDay) ∧
    (∀ (store : List Int) (selectedDate : Nat) (view : String),
      (∀ r, r < store.length →
        (handleDateChangeIn tz store selectedDate view offset).1.getD r 0 = store.getD r 0) ∧
      (handleDateChangeIn tz store selectedDate view offset).2 = store.length ∧
      (handleDateChangeIn tz store selectedDate view offset).1.getD
          (handleDateChangeIn tz store selectedDate view offset).2 0
        = handleDateChange tz (store.getD selectedDate 0) view offset) ∧
    (YearFromTime (LocalTime phoenix (handleDateChange phoenix 1735671600000 "day" 1)),
      getMonth phoenix (handleDateChange phoenix 1735671600000 "day" 1),
      getDate phoenix (handleDateChange phoenix 1735671600000 "day" 1)) = (2025, 0, 1) ∧
    (YearFromTime (LocalTime phoenix (handleDateChange phoenix 1709492400000 "week" (-1))),
      getMonth phoenix (handleDateChange phoenix 1709492400000 "week" (-1)),
      getDate phoenix (handleDateChange phoenix 1709492400000 "week" (-1))) = (2024, 1, 25) := by
  have hv : ¬ ("week" = "day") := by decide
  refine ⟨?_, ?_, ?_, ?_, by decide, by decide⟩
  · simp only [handleDateChange, if_true]
    exact Day_setDate_getDate_add tz hs D offset
  · simp only [handleDateChange, hv, if_false, if_true]
    rw [Day_setDate_getDate_add tz hs D (offset * 7)]
    ring
  · intro minutes
    constructor
    · simp only [handleDateChange, if_true]
      exact setDate_getDate_add_fixed minutes D offset
    · simp only [handleDateChange, hv, if_false, if_true]
      rw [setDate_getDate_add_fixed minutes D (offset * 7)]
      ring
  · intro store selectedDate view
    have hget : (store ++ [store.getD selectedDate 0]).getD store.length 0
        = store.getD selectedDate 0 := by
      simp [List.getD_eq_getElem?_getD]
    have hold : ∀ (v : Int) (r : Nat), r < store.length →
        ((store ++ [store.getD selectedDate 0]).set store.length v).getD r 0
          = store.getD r 0 := by
      intro v r hr
      simp [List.getD_eq_getElem?_getD, List.getElem?_set, List.getElem?_append_left hr,
        Nat.ne_of_gt hr]
    have hnew : ∀ v : Int,
        ((store ++ [store.getD selectedDate 0]).set store.length v).getD store.length 0 = v := by
      intro v
      simp [List.getD_eq_getElem?_getD, List.getElem?_set]
    have hold2 : ∀ r : Nat, r < store.length →
        (store ++ [store.getD selectedDate 0]).getD r 0 = store.getD r 0 := by
      intro r hr
      simp [List.getD_eq_getElem?_getD, List.getElem?_append_left hr]
    unfold handleDateChangeIn handleDateChange
    simp only [hget]
    split_ifs
    · exact ⟨fun r hr => hold _ r hr, rfl, hnew _⟩
    · exact ⟨fun r hr => hold _ r hr, rfl, hnew _⟩
    · exact ⟨fun r hr => hold _ r hr, rfl, hnew _⟩
    · exact ⟨fun r hr => hold2 r hr, rfl, hget⟩

/-- Witness for C14 in Pacific Time, at 2024-03-15T23:30Z. -/
theorem handleDateChange_days_witness :
    losAngeles2024.DayStable ∧
    Day (LocalTime losAngeles2024 (handleDateChange losAngeles2024 1710545400000 "day" 1))
      = Day (LocalTime losAngeles2024 1710545400000) + 1 :=
  ⟨losAngeles2024_dayStable,
    (handleDateChange_days losAngeles2024 losAngeles2024_dayStable 1710545400000 1).1⟩


/-- The local calendar fields `setMonth` reaches in a day-stable zone when the
target month has the day of the month of the start, and when it has not. -/
theorem setMonth_fields (tz : TimeZone) (hs : tz.DayStable) (t m : Int) :
    (DateFromTime (LocalTime tz t)
        ≤ DaysInMonth (YearFromTime (LocalTime tz t) + m / 12) (m % 12) →
      YearFromTime (LocalTime tz (setMonth tz t m)) = YearFromTime (LocalTime tz t) + m / 12 ∧
      MonthFromTime (LocalTime tz (setMonth tz t m)) = m % 12 ∧
      DateFromTime (LocalTime tz (setMonth tz t m)) = DateFromTime (LocalTime tz t)) ∧
    (DaysInMonth (YearFromTime (LocalTime tz t) + m / 12) (m % 12)
        < DateFromTime (LocalTime tz t) →
      YearFromTime (LocalTime tz (setMonth tz t m)) = YearFromTime (LocalTime tz t) + m / 12 ∧
      MonthFromTime (LocalTime tz (setMonth tz t m)) = m % 12 + 1 ∧
      DateFromTime (LocalTime tz (setMonth tz t m))
        = DateFromTime (LocalTime tz t)
          - DaysInMonth (YearFromTime (LocalTime tz t) + m / 12) (m % 12)) := by
  have hday := Day_setMonth tz hs t m
  rw [MakeDay_eq] at hday
  have hdr := DateFromTime_range (LocalTime tz t)
  have hmr : 0 ≤ m % 12 ∧ m % 12 ≤ 11 := by omega
  constructor
  · intro hfit
    exact fields_of_Day _ _ _ _ hmr.1 hmr.2 hdr.1 hfit hday
  · intro hover
    have hlen := DaysInMonth_range (YearFromTime (LocalTime tz t) + m / 12) (m % 12)
    have hlt : m % 12 < 11 := by
      by_contra hcon
      have h11 : m % 12 = 11 := by omega
      rw [h11, DaysInMonth_december] at hover
      omega
    have hsucc := daysBeforeMonth_succ (YearFromTime (LocalTime tz t) + m / 12) (m % 12)
      hmr.1 hlt
    have hlen2 := DaysInMonth_range (YearFromTime (LocalTime tz t) + m / 12) (m % 12 + 1)
    exact fields_of_Day _ _ _ _ (by omega) (by omega) (by omega) (by omega) (by omega)

/-- C15, as amended: in a day-stable zone `handleDateChange` in month view moves
the reference date by `offset` calendar months (`+1` or `-1`, and any other
integer), the year rolling over with the month: when the target month has the
day of the month of the reference date (always for days 1 to 28), the result is
that day of the target month; when it has not, the result runs over into the
month after the target month, by as many days as the target month is short. -/
theorem handleDateChange_month (tz : TimeZone) (hs : tz.DayStable) (D offset : Int) :
    (getDate tz D ≤ DaysInMonth (targetYear (LocalTime tz D) offset)
        (targetMonth (LocalTime tz D) offset) →
      YearFromTime (LocalTime tz (handleDateChange tz D "month" offset))
        = targetYear (LocalTime tz D) offset ∧
      getMonth tz (handleDateChange tz D "month" offset) = targetMonth (LocalTime tz D) offset ∧
      getDate tz (handleDateChange tz D "month" offset) = getDate tz D) ∧
    (DaysInMonth (targetYear (LocalTime tz D) offset) (targetMonth (LocalTime tz D) offset)
        < getDate tz D →
      YearFromTime (LocalTime tz (handleDateChange tz D "month" offset))
        = targetYear (LocalTime tz D) offset ∧
      getMonth tz (handleDateChange tz D "month" offset)
        = targetMonth (LocalTime tz D) offset + 1 ∧
      getDate tz (handleDateChange tz D "month" offset)
        = getDate tz D - DaysInMonth (targetYear (LocalTime tz D) offset)
            (targetMonth (LocalTime tz D) offset)) ∧
    (getDate tz D ≤ 28 →
      getDate tz D ≤ DaysInMonth (targetYear (LocalTime tz D) offset)
        (targetMonth (LocalTime tz D) offset)) ∧
    (MonthFromTime (LocalTime tz D) = 11 →
      targetYear (LocalTime tz D) 1 = YearFromTime (LocalTime tz D) + 1 ∧
      targetMonth (LocalTime tz D) 1 = 0) ∧
    (MonthFromTime (LocalTime tz D) < 11 →
      targetYear (LocalTime tz D) 1 = YearFromTime (LocalTime tz D) ∧
      targetMonth (LocalTime tz D) 1 = MonthFromTime (LocalTime tz D) + 1) ∧
    (MonthFromTime (LocalTime tz D) = 0 →
      targetYear (LocalTime tz D) (-1) = YearFromTime (LocalTime tz D) - 1 ∧
      targetMonth (LocalTime tz D) (-1) = 11) ∧
    (0 < MonthFromTime (LocalTime tz D) →
      targetYear (LocalTime tz D) (-1) = YearFromTime (LocalTime tz D) ∧
      targetMonth (LocalTime tz D) (-1) = MonthFromTime (LocalTime tz D) - 1) := by
  have hv1 : ¬ ("month" = "day") := by decide
  have hv2 : ¬ ("month" = "week") := by decide
  have hmr := MonthFromTime_range (LocalTime tz D)
  have hfields := setMonth_fields tz hs D (getMonth tz D + offset)
  have hlen := DaysInMonth_range (targetYear (LocalTime tz D) offset)
    (targetMonth (LocalTime tz D) offset)
  simp only [handleDateChange, hv1, hv2, if_false, if_true]
  unfold targetYear targetMonth getDate getMonth at *
  refine ⟨hfields.1, hfields.2, ?_, ?_, ?_, ?_, ?_⟩
  · intro h; omega
  · intro h; omega
  · intro h; omega
  · intro h; omega
  · intro h; omega

/-- Witness for C15 as amended, in Pacific Time at 2024-03-15T23:30Z. -/
theorem handleDateChange_month_witness :
    losAngeles2024.DayStable ∧
    (getDate losAngeles2024 1710545400000
        ≤ DaysInMonth (targetYear (LocalTime losAngeles2024 1710545400000) 1)
          (targetMonth (LocalTime losAngeles2024 1710545400000) 1) →
      YearFromTime (LocalTime losAngeles2024
          (handleDateChange losAngeles2024 1710545400000 "month" 1))
        = targetYear (LocalTime losAngeles2024 1710545400000) 1 ∧
      getMonth losAngeles2024 (handleDateChange losAngeles2024 1710545400000 "month" 1)
        = targetMonth (LocalTime losAngeles2024 1710545400000) 1 ∧
      getDate losAngeles2024 (handleDateChange losAngeles2024 1710545400000 "month" 1)
        = getDate losAngeles2024 1710545400000) :=
  ⟨losAngeles2024_dayStable,
    (handleDateChange_month losAngeles2024 losAngeles2024_dayStable 1710545400000 1).1⟩

/-- C15 as stated fails: in UTC, one month on from 31 January 2024 (12:00) is
2 March 2024, in March and not in February, and one month back from 31 May 2024
is 1 May 2024, still in May and not in April. -/
theorem handleDateChange_month_overflow :
    (getMonth TimeZone.utc 1706702400000, getDate TimeZone.utc 1706702400000) = (0, 31) ∧
    (getMonth TimeZone.utc (handleDateChange TimeZone.utc 1706702400000 "month" 1),
      getDate TimeZone.utc (handleDateChange TimeZone.utc 1706702400000 "month" 1)) = (2, 2) ∧
    (getMonth TimeZone.utc 1717156800000, getDate TimeZone.utc 1717156800000) = (4, 31) ∧
    (getMonth TimeZone.utc (handleDateChange TimeZone.utc 1717156800000 "month" (-1)),
      getDate TimeZone.utc (handleDateChange TimeZone.utc 1717156800000 "month" (-1)))
      = (4, 1) := by
  decide


/-- C16: in Phoenix, for the reference date 2024-03-05T03:00Z (Monday
2024-03-04, 20:00 local), the week grid starts with the cell dated `2024-03-04`
and the week grid for `handleDateChange(-1)` starts with the cell dated
`2024-02-26`; both cells are named `Sun` but both dates are Mondays, and the
second is not the Sunday `2024-02-25`.  In British time, for the reference date
2024-03-31T00:30Z, the week grid starts at `2024-03-31` and the grid for
`handleDateChange(+1)` at `2024-04-06`, six days later and a Saturday. -/
theorem week_grid_after_navigation :
    (generateCalendarDays phoenix 1709607600000 "week").map (fun days => days.head?)
      = some (some ⟨"2024-03-04", "Sun", 3⟩) ∧
    (generateCalendarDays phoenix (handleDateChange phoenix 1709607600000 "week" (-1))
        "week").map (fun days => days.head?)
      = some (some ⟨"2024-02-26", "Sun", 25⟩) ∧
    (parseIsoDate "2024-02-26").map WeekDay = some 1 ∧
    (generateCalendarDays london2024 1711845000000 "week").map (fun days => days.head?)
      = some (some ⟨"2024-03-31", "Sun", 31⟩) ∧
    (generateCalendarDays london2024 (handleDateChange london2024 1711845000000 "week" 1)
        "week").map (fun days => days.head?)
      = some (some ⟨"2024-04-06", "Sun", 7⟩) ∧
    (parseIsoDate "2024-04-06").map WeekDay = some 6 := by
  decide

/-- C18, as amended: for a view other than `day`, `week` and `month`,
`generateCalendarDays` does not fail and returns the empty list of cells. -/
theorem generateCalendarDays_unknown_view (tz : TimeZone) (D : Int) (V : String)
    (h1 : V ≠ "day") (h2 : V ≠ "week") (h3 : V ≠ "month") :
    generateCalendarDays tz D V = some [] := by
  simp [generateCalendarDays, h1, h2, h3]

/-- Witness for C18 as amended: the view `year`. -/
theorem generateCalendarDays_unknown_view_witness :
    "year" ≠ "day" ∧ "year" ≠ "week" ∧ "year" ≠ "month" ∧
    generateCalendarDays TimeZone.utc 1709607600000 "year" = some [] :=
  ⟨by decide, by decide, by decide,
    generateCalendarDays_unknown_view TimeZone.utc 1709607600000 "year"
      (by decide) (by decide) (by decide)⟩

/-- C18 as stated fails: for the view `year` the result is the empty list, not
the seven cells of the week view. -/
theorem generateCalendarDays_unknown_view_not_week :
    generateCalendarDays TimeZone.utc 1709607600000 "year" = some [] ∧
    (generateCalendarDays TimeZone.utc 1709607600000 "week").map List.length = some 7 ∧
    generateCalendarDays TimeZone.utc 1709607600000 "year"
      ≠ generateCalendarDays TimeZone.utc 1709607600000 "week" := by
  decide

/-- C19: in Phoenix the reference instants 2024-03-04T19:00Z and
2024-03-05T03:00Z fall on the same local calendar date, 4 March 2024 (noon and
20:00), yet the day view gives cells with different dates, `2024-03-04` and
`2024-03-05`; and the instants 2024-03-05T03:00Z and 2024-03-05T12:00Z fall on
the same UTC date, yet the day view gives cells with different day names and
day numbers. -/
theorem day_grid_depends_on_time_of_day :
    (YearFromTime (LocalTime phoenix 1709578800000), getMonth phoenix 1709578800000,
      getDate phoenix 1709578800000)
      = (YearFromTime (LocalTime phoenix 1709607600000), getMonth phoenix 1709607600000,
        getDate phoenix 1709607600000) ∧
    generateCalendarDays phoenix 1709578800000 "day" = some [⟨"2024-03-04", "Mon", 4⟩] ∧
    generateCalendarDays phoenix 1709607600000 "day" = some [⟨"2024-03-05", "Mon", 4⟩] ∧
    isoDate 1709607600000 = isoDate 1709640000000 ∧
    generateCalendarDays phoenix 1709640000000 "day" = some [⟨"2024-03-05", "Tue", 5⟩] := by
  decide

/-! ## Creating appointments -/

theorem MakeDate_MakeTime_add (lt k : Int) :
    MakeDate (Day lt) (MakeTime (HourFromTime lt) (MinFromTime lt + k) (SecFromTime lt)
      (msFromTime lt)) = lt + k * msPerMinute := by
  unfold MakeDate MakeTime Day HourFromTime MinFromTime SecFromTime msFromTime msPerDay
    msPerHour msPerMinute msPerSecond
  omega

/-- The method `setMinutes`, given the current minute plus `k`, moves the local
time value by `k` minutes. -/
theorem setMinutes_getMinutes_add (tz : TimeZone) (t k : Int) :
    setMinutes tz t (getMinutes tz t + k) = UTC tz (LocalTime tz t + k * msPerMinute) := by
  unfold setMinutes getMinutes
  simp only
  rw [MakeDate_MakeTime_add]

/-- In a zone with a constant offset an appointment that `createAppointment`
builds ends exactly the duration of its service after it starts. -/
theorem createAppointment_duration_fixed (minutes now : Int) (services : List Service)
    (form : NewAppointment) (apt : Appointment) (service : Service)
    (h : createAppointment (TimeZone.fixed minutes) now services form = some apt)
    (hs : services.find? (fun s => s.id == form.service_id) = some service) :
    apt.end_time - apt.start_time = service.duration * msPerMinute := by
  unfold createAppointment at h
  simp only [hs] at h
  split at h
  · exact absurd h (by simp)
  · rename_i startTime _
    injection h with h
    subst h
    simp only
    rw [setMinutes_getMinutes_add]
    simp only [LocalTime, UTC, TimeZone.fixed]
    ring

/-- C20: in Pacific Time the booking of the 90-minute service `4` for 01:30 on
2024-03-10 yields an appointment from 09:30Z to 10:00Z: it ends 30 minutes after
it starts, not 90.  The same booking in Phoenix, and a morning booking in Pacific
Time, end after the duration of their service. -/
theorem createAppointment_night_of_clock_change :
    (mockServices.find? (fun s => s.id == sampleNightBooking.service_id)).map
      (fun s => s.duration) = some 90 ∧
    (createAppointment losAngeles2024 0 mockServices sampleNightBooking).map
      (fun a => (a.service_id, toISOString a.start_time, toISOString a.end_time,
        a.end_time - a.start_time))
      = some ("4", "2024-03-10T09:30:00.000Z", "2024-03-10T10:00:00.000Z",
        30 * msPerMinute) ∧
    (createAppointment phoenix 0 mockServices sampleNightBooking).map
      (fun a => a.end_time - a.start_time) = some (90 * msPerMinute) ∧
    (createAppointment losAngeles2024 0 mockServices sampleMorningBooking).map
      (fun a => a.end_time - a.start_time) = some (30 * msPerMinute) := by
  decide


/-- C21: every appointment `createAppointment` builds has status `scheduled`,
whatever the form holds: the object added to the local state for a test barber
and the row sent to the store for a real barber. -/
theorem createAppointment_status :
    (∀ (tz : TimeZone) (now : Int) (services : List Service) (form : NewAppointment)
      (apt : Appointment),
      createAppointment tz now services form = some apt → apt.status = "scheduled") ∧
    (∀ (tz : TimeZone) (userId tenantId : String) (services : List Service)
      (form : NewAppointment) (row : AppointmentRow),
      createAppointmentRow tz userId tenantId services form = some row →
        row.status = "scheduled") ∧
    (createAppointment losAngeles2024 0 mockServices sampleMorningBooking).map
      (fun a => a.status) = some "scheduled" ∧
    (createAppointmentRow losAngeles2024 "barber-1" "tenant-1" mockServices
      sampleMorningBooking).map (fun r => r.status) = some "scheduled" := by
  refine ⟨?_, ?_, by decide, by decide⟩
  · intro tz now services form apt h
    unfold createAppointment at h
    simp only at h
    split at h
    · exact absurd h (by simp)
    · injection h with h
      subst h
      rfl
  · intro tz userId tenantId services form row h
    unfold createAppointmentRow at h
    simp only at h
    split at h
    · exact absurd h (by simp)
    · injection h with h
      subst h
      rfl

/-! ## Editing and deleting appointments -/

theorem applyUpdates_statusAndNotes (apt : Appointment) (t n : String) :
    applyUpdates apt (statusAndNotes t n)
      = { apt with status := t, notes := n } := rfl

/-- C22: for every collection, every identifier `i` and every status `t` and
notes `n`, after `updateAppointment(i, {status: t, notes: n})` every appointment
with identifier `i` has status `t` and notes `n`, whatever its status was, and
there is one when there was one; the identifiers of the collection stay as they
were.  So each of the four statuses can be left for each of the four. -/
theorem updateAppointment_status (appointments : List Appointment) (i t n : String) :
    (∀ a ∈ updateAppointment appointments i (statusAndNotes t n),
      a.id = i → a.status = t ∧ a.notes = n) ∧
    ((∃ a ∈ appointments, a.id = i) →
      ∃ a ∈ updateAppointment appointments i (statusAndNotes t n),
        a.id = i ∧ a.status = t ∧ a.notes = n) ∧
    (updateAppointment appointments i (statusAndNotes t n)).map (fun a => a.id)
      = appointments.map (fun a => a.id) ∧
    (∀ s ∈ ["scheduled", "completed", "cancelled", "no-show"],
      ∀ u ∈ ["scheduled", "completed", "cancelled", "no-show"],
        (updateAppointment [{ sampleHaircut with status := s }] "apt-1"
          (statusAndNotes u "done")).map (fun a => (a.status, a.notes)) = [(u, "done")]) := by
  refine ⟨?_, ?_, ?_, by decide⟩
  · intro a ha hid
    unfold updateAppointment at ha
    rw [List.mem_map] at ha
    obtain ⟨b, hb, rfl⟩ := ha
    by_cases h : b.id = i
    · rw [if_pos h, applyUpdates_statusAndNotes]
      exact ⟨rfl, rfl⟩
    · rw [if_neg h] at hid
      exact absurd hid h
  · rintro ⟨a, ha, hid⟩
    refine ⟨applyUpdates a (statusAndNotes t n), ?_, ?_⟩
    · unfold updateAppointment
      rw [List.mem_map]
      exact ⟨a, ha, by rw [if_pos hid]⟩
    · rw [applyUpdates_statusAndNotes]
      exact ⟨hid, rfl, rfl⟩
  · unfold updateAppointment
    rw [List.map_map]
    apply List.map_congr_left
    intro a _
    simp only [Function.comp]
    by_cases h : a.id = i
    · rw [if_pos h, applyUpdates_statusAndNotes]
    · rw [if_neg h]

/-- C26: `updateAppointment(id, updates)` keeps the length and the order of the
collection: the appointment at each position is the old one, untouched when its
identifier differs from `id`, and otherwise the old one with the fields of
`updates` written over it, every field that `updates` does not have being as it
was; with `{status, notes}` these are the identifier, client, service, start
and end.  When no appointment has the identifier the collection is unchanged. -/
theorem updateAppointment_frame (appointments : List Appointment) (id : String)
    (updates : AppointmentUpdates) :
    (updateAppointment appointments id updates).length = appointments.length ∧
    (∀ k : Nat, (updateAppointment appointments id updates)[k]?
      = (appointments[k]?).map
          (fun apt => if apt.id = id then applyUpdates apt updates else apt)) ∧
    (∀ apt : Appointment,
      (updates.id = none → (applyUpdates apt updates).id = apt.id) ∧
      (updates.client_id = none → (applyUpdates apt updates).client_id = apt.client_id) ∧
      (updates.service_id = none → (applyUpdates apt updates).service_id = apt.service_id) ∧
      (updates.start_time = none → (applyUpdates apt updates).start_time = apt.start_time) ∧
      (updates.end_time = none → (applyUpdates apt updates).end_time = apt.end_time) ∧
      (updates.status = none → (applyUpdates apt updates).status = apt.status) ∧
      (updates.notes = none → (applyUpdates apt updates).notes = apt.notes)) ∧
    (∀ (apt : Appointment) (t n : String),
      (applyUpdates apt (statusAndNotes t n)).id = apt.id ∧
      (applyUpdates apt (statusAndNotes t n)).client_id = apt.client_id ∧
      (applyUpdates apt (statusAndNotes t n)).service_id = apt.service_id ∧
      (applyUpdates apt (statusAndNotes t n)).start_time = apt.start_time ∧
      (applyUpdates apt (statusAndNotes t n)).end_time = apt.end_time) ∧
    ((∀ apt ∈ appointments, apt.id ≠ id) →
      updateAppointment appointments id updates = appointments) := by
  refine ⟨?_, ?_, ?_, ?_, ?_⟩
  · simp [updateAppointment]
  · intro k
    simp [updateAppointment]
  · intro apt
    refine ⟨?_, ?_, ?_, ?_, ?_, ?_, ?_⟩ <;> intro h <;> simp [applyUpdates, h]
  · intro apt t n
    exact ⟨rfl, rfl, rfl, rfl, rfl⟩
  · intro h
    unfold updateAppointment
    conv_rhs => rw [← List.map_id appointments]
    apply List.map_congr_left
    intro a ha
    rw [if_neg (h a ha)]
    rfl

/-- C27: once confirmed, `deleteAppointment(id)` keeps exactly the appointments
whose identifier differs from `id`, each as often as before and in the old
order: none with that identifier remains, and when none had it the collection
is unchanged.  Without confirmation nothing is removed. -/
theorem deleteAppointment_exact (appointments : List Appointment) (id : String) :
    (∀ a ∈ deleteAppointment true appointments id, a.id ≠ id) ∧
    (∀ a, a ∈ deleteAppointment true appointments id ↔ a ∈ appointments ∧ a.id ≠ id) ∧
    List.Sublist (deleteAppointment true appointments id) appointments ∧
    (∀ a, a.id ≠ id → (deleteAppointment true appointments id).count a = appointments.count a) ∧
    ((∀ a ∈ appointments, a.id ≠ id) → deleteAppointment true appointments id = appointments) ∧
    deleteAppointment false appointments id = appointments := by
  have hdef : deleteAppointment true appointments id
      = appointments.filter (fun apt => apt.id != id) := rfl
  refine ⟨?_, ?_, ?_, ?_, ?_, rfl⟩
  · intro a ha
    rw [hdef, List.mem_filter] at ha
    simpa using ha.2
  · intro a
    rw [hdef, List.mem_filter]
    simp
  · rw [hdef]
    exact List.filter_sublist appointments
  · intro a ha
    rw [hdef]
    exact List.count_filter (by simpa using ha)
  · intro h
    rw [hdef, List.filter_eq_self]
    intro a ha
    simpa using h a ha

/-! ## Cells and bookings outside UTC -/

/-- C23: in Tokyo the day view for 2024-03-04T23:00Z (Tuesday 2024-03-05, 08:00
local) gives the cell with date `2024-03-04`, day name `Tue` and day number 5,
whereas the date `2024-03-04` has day of the month 4 and is a Monday (weekday
index 1). -/
theorem cell_fields_disagree :
    generateCalendarDays tokyo 1709593200000 "day" = some [⟨"2024-03-04", "Tue", 5⟩] ∧
    (parseIsoDate "2024-03-04").map DateFromTime = some 4 ∧
    (parseIsoDate "2024-03-04").map WeekDay = some 1 ∧
    shortWeekdays.getD 1 "" = "Mon" := by
  decide

/-- C24: in Phoenix the booking of 2024-03-04 at 17:00 yields an appointment
that starts at 2024-03-05T00:00Z: the day filter does not return it for the
form date `2024-03-04` but for `2024-03-05`, while the slot filter returns it
for the form time `17:00`. -/
theorem booking_lands_on_next_day :
    (createAppointment phoenix 0 mockServices sampleEveningBooking).map (fun a =>
      (toISOString a.start_time,
        decide (getAppointmentsForDay [a] "2024-03-04" = []),
        decide (getAppointmentsForDay [a] "2024-03-05" = [a]),
        decide (binByTimeSlot phoenix [a] "17:00" = [a])))
      = some ("2024-03-05T00:00:00.000Z", true, true, true) ∧
    "17:00" ∈ generateTimeSlots := by
  decide

/-! ## The client list -/

theorem clientMapStep_none (m : List (String × ClientEntry)) (row : ClientRow)
    (h : row.profiles = none) : clientMapStep m row = m := by
  unfold clientMapStep; rw [h]

theorem clientMapStep_new (m : List (String × ClientEntry)) (row : ClientRow) (client : Profile)
    (h : row.profiles = some client) (hnew : client.id ∉ m.map (fun e => e.1)) :
    clientMapStep m row = m ++ [(client.id, newClientEntry client)] := by
  have hany : ¬ (m.any (fun e => e.1 == client.id) = true) := by
    rw [List.any_eq_true]
    rintro ⟨e, he, heq⟩
    exact hnew (List.mem_map.mpr ⟨e, he, by simpa using heq⟩)
  unfold clientMapStep
  rw [h]
  simp only
  rw [if_pos hany]

theorem clientMapStep_seen (m : List (String × ClientEntry)) (row : ClientRow) (client : Profile)
    (h : row.profiles = some client) (hseen : client.id ∈ m.map (fun e => e.1)) :
    clientMapStep m row = m.map (fun e =>
      if e.1 = client.id then (e.1, { e.2 with total_visits := e.2.total_visits + 1 })
      else e) := by
  have hany : m.any (fun e => e.1 == client.id) = true := by
    rw [List.any_eq_true]
    obtain ⟨e, he, heq⟩ := List.mem_map.mp hseen
    exact ⟨e, he, by simp [heq]⟩
  unfold clientMapStep
  rw [h]
  simp only
  rw [if_neg (by simp [hany])]

theorem mem_firstOccurrences (l : List String) (x : String) :
    x ∈ firstOccurrences l ↔ x ∈ l := by
  induction l with
  | nil => simp [firstOccurrences]
  | cons y ys ih =>
    simp only [firstOccurrences, List.mem_cons, List.mem_filter, ih]
    constructor
    · rintro (h | ⟨h, -⟩)
      · exact Or.inl h
      · exact Or.inr h
    · rintro (h | h)
      · exact Or.inl h
      · by_cases hxy : x = y
        · exact Or.inl hxy
        · exact Or.inr ⟨h, by simpa using hxy⟩

theorem firstOccurrences_nodup (l : List String) : (firstOccurrences l).Nodup := by
  induction l with
  | nil => simp [firstOccurrences]
  | cons y ys ih =>
    simp only [firstOccurrences, List.nodup_cons, List.mem_filter]
    refine ⟨?_, ih.filter _⟩
    rintro ⟨-, h⟩
    simp at h

theorem firstOccurrences_append_singleton (l : List String) (x : String) :
    firstOccurrences (l ++ [x])
      = if x ∈ l then firstOccurrences l else firstOccurrences l ++ [x] := by
  induction l with
  | nil => simp [firstOccurrences]
  | cons y ys ih =>
    show firstOccurrences (y :: (ys ++ [x])) = _
    simp only [firstOccurrences]
    rw [ih]
    by_cases hxy : x = y
    · subst hxy
      by_cases hx : x ∈ ys
      · simp [hx]
      · simp [hx, List.filter_append]
    · by_cases hx : x ∈ ys
      · simp [hx, hxy]
      · simp [hx, hxy, List.filter_append]

theorem referencedClients_append (data : List ClientRow) (row : ClientRow) :
    referencedClients (data ++ [row])
      = match row.profiles with
        | none => referencedClients data
        | some client => referencedClients data ++ [client.id] := by
  unfold referencedClients
  rw [List.filterMap_append]
  cases h : row.profiles <;> simp [List.filterMap, h]

/-- The state of the client map after the rows `data`: its keys are the
referenced clients in the order of first occurrence, and every entry carries its
key as identifier and the number of rows that reference it as visits. -/
theorem clientMap_invariant (data : List ClientRow) :
    (data.foldl clientMapStep []).map (fun e => e.1)
        = firstOccurrences (referencedClients data) ∧
    ∀ e ∈ data.foldl clientMapStep [],
      e.2.id = e.1 ∧ e.2.total_visits = (referencedClients data).count e.1 := by
  induction data using List.reverseRecOn with
  | nil => simp [firstOccurrences, referencedClients]
  | append_singleton data row ih =>
    rw [List.foldl_append, List.foldl_cons, List.foldl_nil]
    generalize data.foldl clientMapStep [] = m at ih ⊢
    obtain ⟨hkeys, hent⟩ := ih
    rw [referencedClients_append]
    cases hrow : row.profiles with
    | none =>
      simp only
      rw [clientMapStep_none m row hrow]
      exact ⟨hkeys, hent⟩
    | some client =>
      simp only
      rw [firstOccurrences_append_singleton]
      have hmemiff : client.id ∈ m.map (fun e => e.1) ↔ client.id ∈ referencedClients data := by
        rw [hkeys, mem_firstOccurrences]
      by_cases hmem : client.id ∈ referencedClients data
      · rw [if_pos hmem, clientMapStep_seen m row client hrow (hmemiff.mpr hmem)]
        constructor
        · rw [← hkeys, List.map_map]
          apply List.map_congr_left
          intro e _
          simp only [Function.comp]
          split_ifs <;> rfl
        · intro e he
          rw [List.mem_map] at he
          obtain ⟨e0, he0, rfl⟩ := he
          obtain ⟨h1, h2⟩ := hent e0 he0
          by_cases hkey : e0.1 = client.id
          · rw [if_pos hkey]
            refine ⟨h1, ?_⟩
            simp only
            rw [List.count_append, h2, hkey]
            simp
          · rw [if_neg hkey]
            refine ⟨h1, ?_⟩
            rw [List.count_append, h2]
            simp [List.count_singleton, Ne.symm hkey]
      · have hnew : client.id ∉ m.map (fun e => e.1) := fun h => hmem (hmemiff.mp h)
        rw [if_neg hmem, clientMapStep_new m row client hrow hnew]
        constructor
        · rw [List.map_append, hkeys]
          rfl
        · intro e he
          rw [List.mem_append, List.mem_singleton] at he
          rcases he with he | rfl
          · obtain ⟨h1, h2⟩ := hent e he
            refine ⟨h1, ?_⟩
            rw [List.count_append, h2]
            have hne : e.1 ≠ client.id := by
              intro heq
              exact hnew (List.mem_map.mpr ⟨e, he, heq⟩)
            simp [List.count_singleton, Ne.symm hne]
          · refine ⟨rfl, ?_⟩
            rw [List.count_append, List.count_eq_zero_of_not_mem hmem]
            simp [newClientEntry]

theorem sum_count_firstOccurrences (l : List String) :
    ((firstOccurrences l).map (fun k => l.count k)).sum = l.length := by
  have hperm : (firstOccurrences l).Perm l.dedup := by
    rw [List.perm_ext_iff_of_nodup (firstOccurrences_nodup l) (List.nodup_dedup l)]
    intro a
    rw [mem_firstOccurrences, List.mem_dedup]
  rw [(hperm.map _).sum_eq]
  exact List.sum_map_count_dedup_eq_length l

theorem referencedClients_length (data : List ClientRow) :
    (referencedClients data).length
      = (data.filter (fun row => row.profiles.isSome)).length := by
  unfold referencedClients
  induction data with
  | nil => rfl
  | cons row rest ih =>
    cases h : row.profiles <;> simpa [List.filterMap_cons, List.filter_cons, h] using ih

/-- C30: the client list that `fetchClients` builds holds the clients the rows
reference, each once, in the order of their first occurrence; the visits of each
client are the number of rows that reference it, and the visits of all clients
add up to the number of rows with a profile. -/
theorem buildClientList_spec (data : List ClientRow) :
    (buildClientList data).map (fun c => c.id) = firstOccurrences (referencedClients data) ∧
    ((buildClientList data).map (fun c => c.id)).Nodup ∧
    (∀ id, id ∈ (buildClientList data).map (fun c => c.id) ↔ id ∈ referencedClients data) ∧
    (∀ c ∈ buildClientList data, c.total_visits = (referencedClients data).count c.id) ∧
    ((buildClientList data).map (fun c => c.total_visits)).sum
      = (referencedClients data).length ∧
    (referencedClients data).length = (data.filter (fun row => row.profiles.isSome)).length := by
  obtain ⟨hkeys, hent⟩ := clientMap_invariant data
  have hids : (buildClientList data).map (fun c => c.id)
      = firstOccurrences (referencedClients data) := by
    rw [← hkeys]
    unfold buildClientList
    rw [List.map_map]
    apply List.map_congr_left
    intro e he
    exact (hent e he).1
  have hvis : ∀ c ∈ buildClientList data,
      c.total_visits = (referencedClients data).count c.id := by
    intro c hc
    unfold buildClientList at hc
    rw [List.mem_map] at hc
    obtain ⟨e, he, rfl⟩ := hc
    obtain ⟨h1, h2⟩ := hent e he
    rw [h2, h1]
  refine ⟨hids, ?_, ?_, hvis, ?_, ?_⟩
  · rw [hids]; exact firstOccurrences_nodup _
  · intro id
    rw [hids, mem_firstOccurrences]
  · have h1 : (buildClientList data).map (fun c => c.total_visits)
        = ((buildClientList data).map (fun c => c.id)).map
            (fun k => (referencedClients data).count k) := by
      rw [List.map_map]
      apply List.map_congr_left
      intro c hc
      exact hvis c hc
    rw [h1, hids]
    exact sum_count_firstOccurrences _
  · exact referencedClients_length data

/-! ## Revenue analytics -/

theorem ownGet_ownSet {V : Type} (m : List (String × V)) (k : String) (v : V) (key : String) :
    ownGet (ownSet m k v) key = if key = k then some v else ownGet m key := by
  induction m with
  | nil =>
    simp only [ownSet, ownGet]
    by_cases h : k = key
    · simp [h]
    · simp [h, Ne.symm h]
  | cons e rest ih =>
    obtain ⟨k0, w⟩ := e
    simp only [ownSet]
    by_cases h0 : k0 = k
    · rw [if_pos h0]
      simp only [ownGet]
      subst h0
      by_cases h : k0 = key
      · simp [h]
      · simp [h, Ne.symm h]
    · rw [if_neg h0]
      simp only [ownGet, ih]
      by_cases h : k0 = key
      · have : ¬ key = k := by rw [← h]; exact h0
        simp [h, this]
      · simp [h]

theorem ownGet_eq_none_iff {V : Type} (m : List (String × V)) (key : String) :
    ownGet m key = none ↔ key ∉ m.map (fun e => e.1) := by
  induction m with
  | nil => simp [ownGet]
  | cons e rest ih =>
    obtain ⟨k0, w⟩ := e
    simp only [ownGet, List.map_cons, List.mem_cons, not_or]
    by_cases h : k0 = key
    · simp [h]
    · simp [h, ih, Ne.symm h]

theorem ownSet_keys {V : Type} (m : List (String × V)) (k : String) (v : V) :
    (ownSet m k v).map (fun e => e.1)
      = if k ∈ m.map (fun e => e.1) then m.map (fun e => e.1)
        else m.map (fun e => e.1) ++ [k] := by
  induction m with
  | nil => simp [ownSet]
  | cons e rest ih =>
    obtain ⟨k0, w⟩ := e
    simp only [ownSet]
    by_cases h0 : k0 = k
    · simp [h0]
    · rw [if_neg h0]
      simp only [List.map_cons, ih, List.mem_cons]
      by_cases hk : k ∈ rest.map (fun e => e.1)
      · simp [hk]
      · simp [hk, Ne.symm h0]

theorem ownSet_keys_nodup {V : Type} (m : List (String × V)) (k : String) (v : V)
    (h : (m.map (fun e => e.1)).Nodup) : ((ownSet m k v).map (fun e => e.1)).Nodup := by
  rw [ownSet_keys]
  split_ifs with hk
  · exact h
  · rw [List.nodup_append]
    refine ⟨h, List.nodup_singleton k, ?_⟩
    intro a ha hb
    rw [List.mem_singleton] at hb
    exact hk (hb ▸ ha)

theorem ownGet_of_mem {V : Type} (m : List (String × V)) (h : (m.map (fun e => e.1)).Nodup)
    (e : String × V) (he : e ∈ m) : ownGet m e.1 = some e.2 := by
  induction m with
  | nil => simp at he
  | cons e0 rest ih =>
    obtain ⟨k0, w⟩ := e0
    rw [List.map_cons, List.nodup_cons] at h
    rw [List.mem_cons] at he
    simp only [ownGet]
    rcases he with rfl | he
    · simp
    · have hne : ¬ k0 = e.1 := by
        intro heq
        exact h.1 (heq ▸ List.mem_map.mpr ⟨e, he, rfl⟩)
      rw [if_neg hne]
      exact ih h.2 he

theorem mem_of_ownGet {V : Type} (m : List (String × V)) (key : String) (v : V)
    (h : ownGet m key = some v) : (key, v) ∈ m := by
  induction m with
  | nil => simp [ownGet] at h
  | cons e0 rest ih =>
    obtain ⟨k0, w⟩ := e0
    simp only [ownGet] at h
    by_cases hk : k0 = key
    · rw [if_pos hk] at h
      cases h
      simp [hk]
    · rw [if_neg hk] at h
      exact List.mem_cons_of_mem _ (ih h)

/-- An assignment changes the sum of a quantity over the properties by the
difference between the new and the old value. -/
theorem ownSet_sum {V M : Type} [AddCommMonoid M] (f : V → M) (m : List (String × V))
    (k : String) (v : V) :
    ((ownSet m k v).map (fun e => f e.2)).sum + ((ownGet m k).map f).getD 0
      = (m.map (fun e => f e.2)).sum + f v := by
  induction m with
  | nil => simp [ownSet, ownGet]
  | cons e rest ih =>
    obtain ⟨k0, w⟩ := e
    simp only [ownSet, ownGet]
    by_cases h0 : k0 = k
    · simp only [if_pos h0, List.map_cons, List.sum_cons, Option.map_some', Option.getD_some]
      abel
    · simp only [if_neg h0, List.map_cons, List.sum_cons]
      rw [add_assoc, ih]
      abel

theorem objectEntries_perm {V : Type} (obj : List (String × V)) :
    (objectEntries obj).Perm obj := by
  unfold objectEntries
  refine ((List.perm_insertionSort _ _).append_right _).trans ?_
  have h := List.filter_append_perm (fun e : String × V => (arrayIndex e.1).isSome) obj
  simpa using h

theorem serviceCountsStep_eq (sc : List (String × ServiceCount)) (name : String) (price : ℚ)
    (h : name ∉ objectPrototypeKeys) :
    serviceCountsStep sc name price
      = match ownGet sc name with
        | some d => ownSet sc name ⟨d.count + 1, d.revenue + price⟩
        | none => ownSet (ownSet sc name ⟨0, 0⟩) name ⟨0 + 1, 0 + price⟩ := by
  unfold serviceCountsStep
  cases hg : ownGet sc name with
  | none =>
    simp only [Option.isNone_none, true_and, h, not_false_eq_true, if_true]
    rw [ownGet_ownSet, if_pos rfl]
  | some d =>
    simp only [Option.isNone_some, Bool.false_eq_true, false_and, if_false, hg]

theorem serviceCountsStep_inherited (sc : List (String × ServiceCount)) (name : String)
    (price : ℚ) (h : name ∈ objectPrototypeKeys) (hown : ownGet sc name = none) :
    serviceCountsStep sc name price = sc := by
  unfold serviceCountsStep
  simp [h, hown]

theorem ownGet_serviceCountsStep (sc : List (String × ServiceCount)) (name : String)
    (price : ℚ) (h : name ∉ objectPrototypeKeys) (key : String) :
    ownGet (serviceCountsStep sc name price) key
      = if key = name then
          some ⟨((ownGet sc name).map (fun d => d.count)).getD 0 + 1,
            ((ownGet sc name).map (fun d => d.revenue)).getD 0 + price⟩
        else ownGet sc key := by
  rw [serviceCountsStep_eq sc name price h]
  cases hg : ownGet sc name with
  | none =>
    simp only [ownGet_ownSet, Option.map_none', Option.getD_none]
    by_cases hk : key = name
    · simp [hk]
    · simp [hk]
  | some d =>
    simp only [ownGet_ownSet, Option.map_some', Option.getD_some]

theorem serviceCountsStep_keys_nodup (sc : List (String × ServiceCount)) (name : String)
    (price : ℚ) (hn : (sc.map (fun e => e.1)).Nodup) :
    ((serviceCountsStep sc name price).map (fun e => e.1)).Nodup := by
  unfold serviceCountsStep
  have h1 : ((if (ownGet sc name).isNone ∧ name ∉ objectPrototypeKeys then
      ownSet sc name ⟨0, 0⟩ else sc).map (fun e => e.1)).Nodup := by
    split_ifs
    · exact ownSet_keys_nodup _ _ _ hn
    · exact hn
  simp only
  split
  · exact ownSet_keys_nodup _ _ _ h1
  · exact h1

theorem serviceCountsStep_revenue (sc : List (String × ServiceCount)) (name : String)
    (price : ℚ) (h : name ∉ objectPrototypeKeys) :
    ((serviceCountsStep sc name price).map (fun e => e.2.revenue)).sum
      = (sc.map (fun e => e.2.revenue)).sum + price := by
  rw [serviceCountsStep_eq sc name price h]
  cases hg : ownGet sc name with
  | none =>
    have h1 := ownSet_sum (fun d : ServiceCount => d.revenue) sc name ⟨0, 0⟩
    have h2 := ownSet_sum (fun d : ServiceCount => d.revenue) (ownSet sc name ⟨0, 0⟩) name
      ⟨0 + 1, 0 + price⟩
    rw [ownGet_ownSet, if_pos rfl] at h2
    rw [hg] at h1
    simp only [Option.map_none', Option.getD_none, Option.map_some', Option.getD_some,
      add_zero, zero_add] at h1 h2
    simp only [zero_add]
    rw [h2, h1]
  | some d =>
    have h1 := ownSet_sum (fun d : ServiceCount => d.revenue) sc name
      ⟨d.count + 1, d.revenue + price⟩
    rw [hg] at h1
    simp only [Option.map_some', Option.getD_some] at h1
    simp only
    linarith

theorem serviceCountsStep_count (sc : List (String × ServiceCount)) (name : String)
    (price : ℚ) (h : name ∉ objectPrototypeKeys) :
    ((serviceCountsStep sc name price).map (fun e => e.2.count)).sum
      = (sc.map (fun e => e.2.count)).sum + 1 := by
  rw [serviceCountsStep_eq sc name price h]
  cases hg : ownGet sc name with
  | none =>
    have h1 := ownSet_sum (fun d : ServiceCount => d.count) sc name ⟨0, 0⟩
    have h2 := ownSet_sum (fun d : ServiceCount => d.count) (ownSet sc name ⟨0, 0⟩) name
      ⟨0 + 1, 0 + price⟩
    rw [ownGet_ownSet, if_pos rfl] at h2
    rw [hg] at h1
    simp only [Option.map_none', Option.getD_none, Option.map_some', Option.getD_some,
      add_zero, zero_add] at h1 h2
    simp only [zero_add]
    rw [h2, h1]
  | some d =>
    have h1 := ownSet_sum (fun d : ServiceCount => d.count) sc name
      ⟨d.count + 1, d.revenue + price⟩
    rw [hg] at h1
    simp only [Option.map_some', Option.getD_some] at h1
    simp only
    omega

theorem revenueMapStep_sum (map : List (String × ℚ)) (key : String) (price : ℚ) :
    ((revenueMapStep map key price).map (fun e => e.2)).sum
      = (map.map (fun e => e.2)).sum + price := by
  unfold revenueMapStep
  have hinit : ∀ init : List (String × ℚ),
      ((ownSet init key ((ownGet init key).getD 0 + price)).map (fun e => e.2)).sum
        = (init.map (fun e => e.2)).sum + price := by
    intro init
    have h := ownSet_sum (fun v : ℚ => v) init key ((ownGet init key).getD 0 + price)
    simp only [Option.map_id'] at h
    linarith
  simp only
  rw [hinit]
  congr 1
  cases hg : ownGet map key with
  | none =>
    have h := ownSet_sum (fun v : ℚ => v) map key 0
    rw [hg] at h
    simpa using h
  | some v =>
    simp only
    split_ifs with hv
    · have h := ownSet_sum (fun v : ℚ => v) map key 0
      rw [hg] at h
      simp only [Option.map_some', Option.getD_some, hv, add_zero] at h
      exact h
    · rfl

/-- The loop state after the rows, field by field. -/
theorem foldl_revenueStep (rows : List CompletedAppointment) (st : RevenueState) :
    (rows.foldl revenueStep st).totalPrice = st.totalPrice + (rows.map rowPrice).sum ∧
    (rows.foldl revenueStep st).serviceCounts
      = rows.foldl (fun sc a => serviceCountsStep sc (rowServiceName a) (rowPrice a))
          st.serviceCounts ∧
    ((rows.foldl revenueStep st).dailyRevenueMap.map (fun e => e.2)).sum
      = (st.dailyRevenueMap.map (fun e => e.2)).sum + (rows.map rowPrice).sum ∧
    ((rows.foldl revenueStep st).monthlyRevenueMap.map (fun e => e.2)).sum
      = (st.monthlyRevenueMap.map (fun e => e.2)).sum + (rows.map rowPrice).sum := by
  induction rows generalizing st with
  | nil => simp
  | cons a rest ih =>
    simp only [List.foldl_cons, List.map_cons, List.sum_cons]
    obtain ⟨h1, h2, h3, h4⟩ := ih (revenueStep st a)
    refine ⟨?_, ?_, ?_, ?_⟩
    · rw [h1]; simp only [revenueStep]; ring
    · rw [h2]; simp only [revenueStep]
    · rw [h3]; simp only [revenueStep]; rw [revenueMapStep_sum]; ring
    · rw [h4]; simp only [revenueStep]; rw [revenueMapStep_sum]; ring

/-- The sums over the service table after rows none of whose service names is
inherited from `Object.prototype`. -/
theorem serviceCounts_sums (rows : List CompletedAppointment)
    (h : ∀ a ∈ rows, rowServiceName a ∉ objectPrototypeKeys) :
    ((rows.foldl (fun sc a => serviceCountsStep sc (rowServiceName a) (rowPrice a)) []).map
        (fun e => e.2.revenue)).sum = (rows.map rowPrice).sum ∧
    ((rows.foldl (fun sc a => serviceCountsStep sc (rowServiceName a) (rowPrice a)) []).map
        (fun e => e.2.count)).sum = rows.length := by
  induction rows using List.reverseRecOn with
  | nil => simp
  | append_singleton rows a ih =>
    have hrows : ∀ a ∈ rows, rowServiceName a ∉ objectPrototypeKeys :=
      fun b hb => h b (List.mem_append_left _ hb)
    have ha : rowServiceName a ∉ objectPrototypeKeys := h a (by simp)
    obtain ⟨ih1, ih2⟩ := ih hrows
    rw [List.foldl_append, List.foldl_cons, List.foldl_nil]
    constructor
    · rw [serviceCountsStep_revenue _ _ _ ha, ih1]; simp
    · rw [serviceCountsStep_count _ _ _ ha, ih2]; simp

/-- Revenue is conserved by `processAppointmentData` on rows none of whose
service names is inherited from `Object.prototype`; the total, the daily and
the monthly amounts are conserved on all rows. -/
theorem processAppointmentData_conserves (localeCompare : String → String → Int)
    (rows : List CompletedAppointment) :
    (processAppointmentData localeCompare rows).totalRevenue = (rows.map rowPrice).sum ∧
    (processAppointmentData localeCompare rows).appointmentsCompleted = rows.length ∧
    (((processAppointmentData localeCompare rows).dailyRevenue).map (fun e => e.amount)).sum
      = (processAppointmentData localeCompare rows).totalRevenue ∧
    (((processAppointmentData localeCompare rows).monthlyTrend).map (fun e => e.amount)).sum
      = (processAppointmentData localeCompare rows).totalRevenue ∧
    ((∀ a ∈ rows, rowServiceName a ∉ objectPrototypeKeys) →
      (((processAppointmentData localeCompare rows).serviceBreakdown).map
          (fun e => e.revenue)).sum
        = (processAppointmentData localeCompare rows).totalRevenue ∧
      (((processAppointmentData localeCompare rows).serviceBreakdown).map
          (fun e => e.count)).sum
        = (processAppointmentData localeCompare rows).appointmentsCompleted) := by
  obtain ⟨h1, h2, h3, h4⟩ := foldl_revenueStep rows ⟨0, [], [], []⟩
  simp only [zero_add, List.map_nil, List.sum_nil] at h1 h2 h3 h4
  have hmapsum : ∀ (m : List (String × ℚ)) (cmp : RevenuePoint → RevenuePoint → Int),
      ((jsSort cmp ((objectEntries m).map (fun e => (⟨e.1, e.2⟩ : RevenuePoint)))).map
        (fun e => e.amount)).sum = (m.map (fun e => e.2)).sum := by
    intro m cmp
    rw [((jsSort_perm cmp _).map _).sum_eq, List.map_map]
    exact ((objectEntries_perm m).map _).sum_eq
  refine ⟨h1, rfl, ?_, ?_, ?_⟩
  · simp only [processAppointmentData]
    rw [hmapsum, h3, h1]
  · simp only [processAppointmentData]
    rw [hmapsum, h4, h1]
  · intro hnames
    obtain ⟨hs1, hs2⟩ := serviceCounts_sums rows hnames
    simp only [processAppointmentData]
    rw [h2]
    constructor
    · unfold jsSortNum
      rw [((List.perm_insertionSort _ _).map _).sum_eq, List.map_map]
      rw [((objectEntries_perm _).map _).sum_eq, h1]
      exact hs1
    · unfold jsSortNum
      rw [((List.perm_insertionSort _ _).map _).sum_eq, List.map_map]
      rw [((objectEntries_perm _).map _).sum_eq]
      exact hs2

theorem serviceVisits_append (rows : List CompletedAppointment) (a : CompletedAppointment)
    (key : String) :
    serviceVisits (rows ++ [a]) key
      = serviceVisits rows key + (if rowServiceName a = key then 1 else 0) := by
  unfold serviceVisits
  rw [List.filter_append, List.length_append]
  by_cases h : rowServiceName a = key <;> simp [List.filter, h]

theorem serviceRevenue_append (rows : List CompletedAppointment) (a : CompletedAppointment)
    (key : String) :
    serviceRevenue (rows ++ [a]) key
      = serviceRevenue rows key + (if rowServiceName a = key then rowPrice a else 0) := by
  unfold serviceRevenue
  rw [List.filter_append, List.map_append, List.sum_append]
  by_cases h : rowServiceName a = key <;> simp [List.filter, h]

theorem serviceVisits_of_not_mem (rows : List CompletedAppointment) (key : String)
    (h : key ∉ serviceNames rows) : serviceVisits rows key = 0 ∧ serviceRevenue rows key = 0 := by
  have hf : rows.filter (fun a => rowServiceName a = key) = [] := by
    rw [List.filter_eq_nil_iff]
    intro a ha
    simp only [decide_eq_true_eq]
    intro heq
    exact h (List.mem_map.mpr ⟨a, ha, heq⟩)
  unfold serviceVisits serviceRevenue
  rw [hf]
  simp

/-- The service table after rows none of whose service names is inherited from
`Object.prototype`: one property for each service of the rows, holding the
number of its rows and the sum of their prices. -/
theorem serviceCounts_invariant (rows : List CompletedAppointment)
    (h : ∀ a ∈ rows, rowServiceName a ∉ objectPrototypeKeys) :
    ((rows.foldl (fun sc a => serviceCountsStep sc (rowServiceName a) (rowPrice a)) []).map
        (fun e => e.1)).Nodup ∧
    ∀ key,
      ownGet (rows.foldl (fun sc a => serviceCountsStep sc (rowServiceName a) (rowPrice a)) [])
          key
        = if key ∈ serviceNames rows then
            some ⟨serviceVisits rows key, serviceRevenue rows key⟩
          else none := by
  induction rows using List.reverseRecOn with
  | nil => simp [ownGet, serviceNames]
  | append_singleton rows a ih =>
    have hrows : ∀ a ∈ rows, rowServiceName a ∉ objectPrototypeKeys :=
      fun b hb => h b (List.mem_append_left _ hb)
    have ha : rowServiceName a ∉ objectPrototypeKeys := h a (by simp)
    obtain ⟨ih1, ih2⟩ := ih hrows
    rw [List.foldl_append, List.foldl_cons, List.foldl_nil]
    generalize rows.foldl (fun sc a => serviceCountsStep sc (rowServiceName a) (rowPrice a)) []
      = sc at ih1 ih2 ⊢
    refine ⟨serviceCountsStep_keys_nodup _ _ _ ih1, ?_⟩
    intro key
    rw [ownGet_serviceCountsStep sc _ _ ha key, serviceVisits_append, serviceRevenue_append]
    have hnames : serviceNames (rows ++ [a]) = serviceNames rows ++ [rowServiceName a] := by
      simp [serviceNames]
    rw [hnames, ih2 (rowServiceName a)]
    by_cases hk : key = rowServiceName a
    · subst hk
      by_cases hmem : rowServiceName a ∈ serviceNames rows
      · simp [hmem]
      · obtain ⟨hv, hr⟩ := serviceVisits_of_not_mem rows _ hmem
        simp [hmem, hv, hr]
    · rw [if_neg hk, ih2 key]
      have hk2 : ¬ rowServiceName a = key := fun heq => hk heq.symm
      simp [hk, hk2]

theorem exists_first_max {α : Type} (f : α → ℚ) (l : List α) (hl : l ≠ []) :
    ∃ pre e post, l = pre ++ e :: post ∧ (∀ x ∈ pre, f x < f e) ∧ (∀ x ∈ post, f x ≤ f e) := by
  induction l with
  | nil => exact absurd rfl hl
  | cons x xs ih =>
    by_cases hxs : xs = []
    · subst hxs
      exact ⟨[], x, [], rfl, by simp, by simp⟩
    · obtain ⟨pre, e, post, hsplit, hpre, hpost⟩ := ih hxs
      by_cases hx : f e ≤ f x
      · refine ⟨[], x, xs, rfl, by simp, ?_⟩
        intro z hz
        rw [hsplit, List.mem_append, List.mem_cons] at hz
        rcases hz with hz | rfl | hz
        · exact le_trans (le_of_lt (hpre z hz)) hx
        · exact hx
        · exact le_trans (hpost z hz) hx
      · refine ⟨x :: pre, e, post, by rw [hsplit]; rfl, ?_, hpost⟩
        intro z hz
        rw [List.mem_cons] at hz
        rcases hz with rfl | hz
        · exact lt_of_not_le hx
        · exact hpre z hz

theorem foldl_topServiceStep_of_le (es : List (String × ServiceCount)) (top : String × ℚ)
    (h : ∀ x ∈ es, x.2.revenue ≤ top.2) : es.foldl topServiceStep top = top := by
  induction es with
  | nil => rfl
  | cons x xs ih =>
    have hx : ¬ x.2.revenue > top.2 := not_lt.mpr (h x (by simp))
    rw [List.foldl_cons]
    unfold topServiceStep
    rw [if_neg hx]
    exact ih (fun y hy => h y (List.mem_cons_of_mem _ hy))

theorem foldl_topServiceStep_lt (pre : List (String × ServiceCount)) (top : String × ℚ)
    (b : ℚ) (htop : top.2 < b) (h : ∀ x ∈ pre, x.2.revenue < b) :
    (pre.foldl topServiceStep top).2 < b := by
  induction pre generalizing top with
  | nil => exact htop
  | cons x xs ih =>
    rw [List.foldl_cons]
    apply ih
    · unfold topServiceStep
      split_ifs
      · exact h x (by simp)
      · exact htop
    · exact fun y hy => h y (List.mem_cons_of_mem _ hy)

theorem foldl_topServiceStep_first_max (pre post : List (String × ServiceCount))
    (e : String × ServiceCount) (top : String × ℚ) (htop : top.2 < e.2.revenue)
    (hpre : ∀ x ∈ pre, x.2.revenue < e.2.revenue)
    (hpost : ∀ x ∈ post, x.2.revenue ≤ e.2.revenue) :
    (pre ++ e :: post).foldl topServiceStep top = (e.1, e.2.revenue) := by
  rw [List.foldl_append, List.foldl_cons]
  have h1 := foldl_topServiceStep_lt pre top e.2.revenue htop hpre
  have h2 : ∀ s : String × ℚ, s.2 < e.2.revenue →
      topServiceStep s e = (e.1, e.2.revenue) := by
    intro s hs
    unfold topServiceStep
    exact if_pos hs
  rw [h2 _ h1]
  exact foldl_topServiceStep_of_le post _ hpost

theorem jsSortNum_perm {α : Type} (cmp : α → α → ℚ) (l : List α) :
    (jsSortNum cmp l).Perm l :=
  List.perm_insertionSort _ l

theorem jsSortNum_filter_eq {α : Type} (cmp : α → α → ℚ) (p : α → Bool)
    (hp : ∀ a b, p a = true → p b = true → cmp a b ≤ 0) (l : List α) :
    (jsSortNum cmp l).filter p = l.filter p := by
  unfold jsSortNum
  have hsub : List.Sublist (l.filter p) (l.insertionSort (fun a b => cmp a b ≤ 0)) := by
    apply List.sublist_insertionSort
    · rw [List.pairwise_iff_forall_sublist]
      intro a b hab
      have ha : a ∈ l.filter p := hab.subset (by simp)
      have hb : b ∈ l.filter p := hab.subset (by simp)
      exact hp a b (List.mem_filter.mp ha).2 (List.mem_filter.mp hb).2
    · exact List.filter_sublist l
  have hsub2 : List.Sublist (l.filter p)
      ((l.insertionSort (fun a b => cmp a b ≤ 0)).filter p) := by
    have := hsub.filter p
    rwa [List.filter_filter, show (fun a => (p a && p a)) = p from by funext a; simp] at this
  have hlen : ((l.insertionSort (fun a b => cmp a b ≤ 0)).filter p).length
      = (l.filter p).length :=
    ((List.perm_insertionSort _ l).filter p).length_eq
  exact (hsub2.eq_of_length hlen.symm).symm

/-- The sort by descending value of `f` yields a list in which every element
has a value no less than every element after it. -/
theorem jsSortNum_descending {α : Type} (f : α → ℚ) (l : List α) :
    (jsSortNum (fun a b => f b - f a) l).Pairwise (fun a b => f b ≤ f a) := by
  haveI : IsTotal α (fun a b => f b - f a ≤ 0) :=
    ⟨fun a b => by rcases le_total (f a) (f b) with h | h
                   · exact Or.inr (by linarith)
                   · exact Or.inl (by linarith)⟩
  haveI : IsTrans α (fun a b => f b - f a ≤ 0) :=
    ⟨fun a b c h1 h2 => by linarith⟩
  have h := List.sorted_insertionSort (fun a b : α => f b - f a ≤ 0) l
  refine List.Pairwise.imp ?_ h
  intro a b hab
  linarith

/-- The stable sort by descending value puts the first element of greatest
value in front. -/
theorem jsSortNum_head_first_max {α : Type} (f : α → ℚ) (pre post : List α) (e : α)
    (hpre : ∀ x ∈ pre, f x < f e) (hpost : ∀ x ∈ post, f x ≤ f e) :
    ∃ rest, jsSortNum (fun a b => f b - f a) (pre ++ e :: post) = e :: rest := by
  have hperm := jsSortNum_perm (fun a b => f b - f a) (pre ++ e :: post)
  have hsorted := jsSortNum_descending f (pre ++ e :: post)
  have hfilter := jsSortNum_filter_eq (fun a b => f b - f a) (fun x => decide (f x = f e))
    (by intro a b ha hb
        simp only [decide_eq_true_eq] at ha hb
        show f b - f a ≤ 0
        rw [ha, hb]; simp) (pre ++ e :: post)
  cases hs : jsSortNum (fun a b => f b - f a) (pre ++ e :: post) with
  | nil =>
    rw [hs] at hperm
    have := hperm.length_eq
    simp at this
    omega
  | cons h rest =>
    rw [hs] at hperm hsorted hfilter
    refine ⟨rest, ?_⟩
    have hh_mem : h ∈ pre ++ e :: post := hperm.subset (by simp)
    have hh_le : f h ≤ f e := by
      rw [List.mem_append, List.mem_cons] at hh_mem
      rcases hh_mem with hm | rfl | hm
      · exact le_of_lt (hpre h hm)
      · exact le_refl _
      · exact hpost h hm
    have he_mem : e ∈ h :: rest := hperm.symm.subset (by simp)
    have he_le : f e ≤ f h := by
      rw [List.mem_cons] at he_mem
      rcases he_mem with rfl | hm
      · exact le_refl _
      · exact (List.pairwise_cons.mp hsorted).1 e hm
    have hfh : f h = f e := le_antisymm hh_le he_le
    have hpre_nil : pre.filter (fun x => decide (f x = f e)) = [] := by
      rw [List.filter_eq_nil_iff]
      intro x hx
      simp only [decide_eq_true_eq]
      exact ne_of_lt (hpre x hx)
    rw [List.filter_append, hpre_nil, List.nil_append] at hfilter
    have hl : List.filter (fun x => decide (f x = f e)) (h :: rest)
        = h :: List.filter (fun x => decide (f x = f e)) rest := by
      simp [List.filter_cons, hfh]
    have hr : List.filter (fun x => decide (f x = f e)) (e :: post)
        = e :: List.filter (fun x => decide (f x = f e)) post := by
      simp [List.filter_cons]
    rw [hl, hr] at hfilter
    rw [(List.cons.inj hfilter).1]

/-- C28: revenue is not conserved for a service whose name is inherited from
`Object.prototype`.  Of two completed appointments, `Haircut` at 25 and
`constructor` at 30, the total revenue is 55 and the daily and monthly amounts
add up to 55, but `serviceBreakdown` holds `Haircut` alone: its revenues add up
to 25 and its counts to 1, against 2 completed appointments. -/
theorem serviceBreakdown_loses_inherited_name :
    (processAppointmentData ordinalCompare sampleInheritedNameRows).totalRevenue = 55 ∧
    (processAppointmentData ordinalCompare sampleInheritedNameRows).appointmentsCompleted = 2 ∧
    (processAppointmentData ordinalCompare sampleInheritedNameRows).serviceBreakdown.map
        (fun e => (e.name, e.count, e.revenue)) = [("Haircut", 1, 25)] ∧
    ((processAppointmentData ordinalCompare sampleInheritedNameRows).serviceBreakdown.map
        (fun e => e.revenue)).sum = 25 ∧
    ((processAppointmentData ordinalCompare sampleInheritedNameRows).serviceBreakdown.map
        (fun e => e.count)).sum = 1 ∧
    (processAppointmentData ordinalCompare sampleInheritedNameRows).dailyRevenue.map
        (fun e => (e.key, e.amount)) = [("2024-03-04", 55)] ∧
    (processAppointmentData ordinalCompare sampleInheritedNameRows).monthlyTrend.map
        (fun e => (e.key, e.amount)) = [("2024-03", 55)] := by
  with_unfolding_all decide

/-- C29 as stated fails: for one completed appointment without a service the
breakdown holds the service `Unknown`, which has the greatest revenue of the
list (0), and `topService` is the empty text, the name of no service of the
list. -/
theorem topService_empty_without_revenue :
    sampleUnpricedRows.length = 1 ∧
    (processAppointmentData ordinalCompare sampleUnpricedRows).topService = "" ∧
    (processAppointmentData ordinalCompare sampleUnpricedRows).serviceBreakdown.map
        (fun e => (e.name, e.count, e.revenue)) = [("Unknown", 1, 0)] ∧
    (processAppointmentData ordinalCompare sampleUnpricedRows).topService
      ∉ serviceNames sampleUnpricedRows ∧
    (processAppointmentData ordinalCompare sampleUnpricedRows).serviceBreakdown.head?.map
        (fun e => e.name)
      ≠ some (processAppointmentData ordinalCompare sampleUnpricedRows).topService := by
  with_unfolding_all decide

/-- C29 (amended): for completed appointments none of whose service names is
inherited from `Object.prototype`, `serviceBreakdown` is sorted by descending
revenue and holds each service of the list once, with the number of its rows and
the sum of their prices.  When some service has a positive total revenue,
`topService` is the name of the first entry of `serviceBreakdown`, a service of
the list whose total revenue is greatest; when none has, `topService` is the
empty text. -/
theorem topService_spec (localeCompare : String → String → Int)
    (rows : List CompletedAppointment)
    (h : ∀ a ∈ rows, rowServiceName a ∉ objectPrototypeKeys) :
    (processAppointmentData localeCompare rows).serviceBreakdown.Pairwise
        (fun a b => b.revenue ≤ a.revenue) ∧
    ((processAppointmentData localeCompare rows).serviceBreakdown.map
        (fun e => e.name)).Nodup ∧
    (∀ name, name ∈ (processAppointmentData localeCompare rows).serviceBreakdown.map
        (fun e => e.name) ↔ name ∈ serviceNames rows) ∧
    (∀ e ∈ (processAppointmentData localeCompare rows).serviceBreakdown,
        e.revenue = serviceRevenue rows e.name ∧ e.count = serviceVisits rows e.name) ∧
    ((∃ a ∈ rows, 0 < serviceRevenue rows (rowServiceName a)) →
        (processAppointmentData localeCompare rows).topService ∈ serviceNames rows ∧
        (∀ a ∈ rows, serviceRevenue rows (rowServiceName a)
          ≤ serviceRevenue rows (processAppointmentData localeCompare rows).topService) ∧
        (processAppointmentData localeCompare rows).serviceBreakdown.head?.map
            (fun e => e.name)
          = some (processAppointmentData localeCompare rows).topService) ∧
    ((∀ a ∈ rows, serviceRevenue rows (rowServiceName a) ≤ 0) →
        (processAppointmentData localeCompare rows).topService = "") := by
  obtain ⟨-, hsc, -, -⟩ := foldl_revenueStep rows ⟨0, [], [], []⟩
  obtain ⟨hnodup, hget⟩ := serviceCounts_invariant rows h
  simp only [processAppointmentData]
  rw [hsc]
  simp only
  generalize rows.foldl (fun sc a => serviceCountsStep sc (rowServiceName a) (rowPrice a)) []
    = sc at hnodup hget ⊢
  have hperm := objectEntries_perm sc
  generalize objectEntries sc = es at hperm ⊢
  have hF1 : ∀ x ∈ es, x.1 ∈ serviceNames rows ∧ x.2.count = serviceVisits rows x.1 ∧
      x.2.revenue = serviceRevenue rows x.1 := by
    intro x hx
    have h1 := ownGet_of_mem sc hnodup x (hperm.subset hx)
    rw [hget x.1] at h1
    by_cases hmem : x.1 ∈ serviceNames rows
    · rw [if_pos hmem] at h1
      have h2 := Option.some.inj h1
      refine ⟨hmem, ?_, ?_⟩
      · rw [← h2]
      · rw [← h2]
    · rw [if_neg hmem] at h1
      cases h1
  have hF2 : ∀ a ∈ rows, ∃ x ∈ es, x.1 = rowServiceName a := by
    intro a ha
    have hmem : rowServiceName a ∈ serviceNames rows := List.mem_map.mpr ⟨a, ha, rfl⟩
    have h1 := hget (rowServiceName a)
    rw [if_pos hmem] at h1
    exact ⟨_, hperm.symm.subset (mem_of_ownGet sc _ _ h1), rfl⟩
  have hsortperm := jsSortNum_perm (fun a b : BreakdownEntry => b.revenue - a.revenue)
    (es.map (fun e => (⟨e.1, e.2.count, e.2.revenue⟩ : BreakdownEntry)))
  have hnames : ((jsSortNum (fun a b : BreakdownEntry => b.revenue - a.revenue)
      (es.map (fun e => (⟨e.1, e.2.count, e.2.revenue⟩ : BreakdownEntry)))).map
        (fun e => e.name)).Perm (sc.map (fun e => e.1)) := by
    refine (hsortperm.map _).trans ?_
    rw [List.map_map]
    exact hperm.map _
  refine ⟨jsSortNum_descending (fun e : BreakdownEntry => e.revenue) _, ?_, ?_, ?_, ?_, ?_⟩
  · exact hnames.nodup_iff.mpr hnodup
  · intro name
    rw [hnames.mem_iff]
    constructor
    · intro hm
      obtain ⟨x, hx, rfl⟩ := List.mem_map.mp hm
      exact (hF1 x (hperm.symm.subset hx)).1
    · intro hm
      obtain ⟨a, ha, rfl⟩ := List.mem_map.mp hm
      obtain ⟨x, hx, hxa⟩ := hF2 a ha
      exact List.mem_map.mpr ⟨x, hperm.subset hx, hxa⟩
  · intro e he
    obtain ⟨x, hx, rfl⟩ := List.mem_map.mp (hsortperm.subset he)
    exact ⟨(hF1 x hx).2.2, (hF1 x hx).2.1⟩
  · rintro ⟨a, ha, hpos⟩
    obtain ⟨x, hx, hxa⟩ := hF2 a ha
    have hes : es ≠ [] := List.ne_nil_of_mem hx
    obtain ⟨pre, e, post, hsplit, hpre, hpost⟩ :=
      exists_first_max (fun x : String × ServiceCount => x.2.revenue) es hes
    have hmax : ∀ y ∈ es, y.2.revenue ≤ e.2.revenue := by
      intro y hy
      rw [hsplit, List.mem_append, List.mem_cons] at hy
      rcases hy with hy | rfl | hy
      · exact le_of_lt (hpre y hy)
      · exact le_refl _
      · exact hpost y hy
    have he : e ∈ es := by rw [hsplit]; simp
    have hepos : (0 : ℚ) < e.2.revenue := by
      have := hmax x hx
      rw [(hF1 x hx).2.2, hxa] at this
      linarith
    have htop : es.foldl topServiceStep ("", 0) = (e.1, e.2.revenue) := by
      rw [hsplit]
      exact foldl_topServiceStep_first_max pre post e ("", 0) hepos hpre hpost
    rw [htop]
    refine ⟨(hF1 e he).1, ?_, ?_⟩
    · intro b hb
      obtain ⟨y, hy, hyb⟩ := hF2 b hb
      have := hmax y hy
      rw [(hF1 y hy).2.2, (hF1 e he).2.2, hyb] at this
      exact this
    · obtain ⟨rest, hrest⟩ := jsSortNum_head_first_max (fun e : BreakdownEntry => e.revenue)
        (pre.map (fun e => (⟨e.1, e.2.count, e.2.revenue⟩ : BreakdownEntry)))
        (post.map (fun e => (⟨e.1, e.2.count, e.2.revenue⟩ : BreakdownEntry)))
        ⟨e.1, e.2.count, e.2.revenue⟩
        (by intro y hy
            obtain ⟨z, hz, rfl⟩ := List.mem_map.mp hy
            exact hpre z hz)
        (by intro y hy
            obtain ⟨z, hz, rfl⟩ := List.mem_map.mp hy
            exact hpost z hz)
      rw [hsplit, List.map_append, List.map_cons, hrest]
      rfl
  · intro hle
    have : ∀ x ∈ es, x.2.revenue ≤ (("", 0) : String × ℚ).2 := by
      intro x hx
      obtain ⟨hm, -, hr⟩ := hF1 x hx
      obtain ⟨a, ha, hxa⟩ := List.mem_map.mp hm
      rw [hr, ← hxa]
      exact hle a ha
    rw [foldl_topServiceStep_of_le es _ this]

theorem topService_spec_witness :
    (∀ a ∈ sampleCompletedRows, rowServiceName a ∉ objectPrototypeKeys) ∧
    (∃ a ∈ sampleCompletedRows, 0 < serviceRevenue sampleCompletedRows (rowServiceName a)) ∧
    (processAppointmentData ordinalCompare sampleCompletedRows).topService = "Haircut" ∧
    (processAppointmentData ordinalCompare sampleCompletedRows).serviceBreakdown.head?.map
        (fun e => e.name)
      = some (processAppointmentData ordinalCompare sampleCompletedRows).topService :=
  ⟨by decide, by with_unfolding_all decide, by with_unfolding_all decide,
    ((topService_spec ordinalCompare sampleCompletedRows (by decide)).2.2.2.2.1
      (by with_unfolding_all decide)).2.2⟩

/-! ## Mock appointments: ranges -/

theorem fixed_daytimeExact (minutes : Int) : (TimeZone.fixed minutes).DaytimeExact := by
  intro l _ _
  simp [LocalTime, UTC, TimeZone.fixed]

theorem losAngeles2024_daytimeExact : losAngeles2024.DaytimeExact := by
  intro l h9 h17
  simp only [losAngeles2024, LocalTime, UTC, TimeZone.summer, HourFromTime, msPerHour,
    msPerMinute] at *
  split_ifs <;> omega

theorem london2024_daytimeExact : london2024.DaytimeExact := by
  intro l h9 h17
  simp only [london2024, LocalTime, UTC, TimeZone.summer, HourFromTime, msPerHour,
    msPerMinute] at *
  split_ifs <;> omega

/-- The index drawn by `Math.floor(Math.random() * n)` lies in the array. -/
theorem floor_draw_range (r : ℚ) (n : Nat) (h0 : 0 ≤ r) (h1 : r < 1) (hn : 0 < n) :
    0 ≤ ⌊r * n⌋ ∧ ⌊r * n⌋ < n := by
  have hn0 : (0 : ℚ) < n := by exact_mod_cast hn
  constructor
  · exact Int.floor_nonneg.mpr (mul_nonneg h0 (le_of_lt hn0))
  · rw [Int.floor_lt]
    push_cast
    nlinarith

theorem jsIndex_draw {α : Type} (array : List α) (hne : array ≠ []) (r : ℚ) (h0 : 0 ≤ r)
    (h1 : r < 1) : ∃ x, jsIndex array ⌊r * array.length⌋ = some x := by
  have hlen : 0 < array.length := List.length_pos.mpr hne
  obtain ⟨hlo, hhi⟩ := floor_draw_range r array.length h0 h1 hlen
  unfold jsIndex
  rw [if_pos hlo]
  have hlt : (⌊r * array.length⌋).toNat < array.length := by omega
  exact ⟨array[(⌊r * array.length⌋).toNat], List.getElem?_eq_getElem hlt⟩

/-- In a zone that is exact in the daytime `setHours` to an hour from 9 to 16
and a minute yields a time with that local hour and minute. -/
theorem setHours_local (tz : TimeZone) (hz : tz.DaytimeExact) (t h m : Int) (hh : 9 ≤ h)
    (hh2 : h ≤ 16) (hm : 0 ≤ m) (hm2 : m < 60) :
    HourFromTime (LocalTime tz (setHours tz t h m 0 0)) = h ∧
    MinFromTime (LocalTime tz (setHours tz t h m 0 0)) = m := by
  unfold setHours
  simp only
  generalize Day (LocalTime tz t) = d
  have hl : HourFromTime (MakeDate d (MakeTime h m 0 0)) = h ∧
      MinFromTime (MakeDate d (MakeTime h m 0 0)) = m := by
    unfold HourFromTime MinFromTime MakeDate MakeTime msPerDay msPerHour msPerMinute msPerSecond
    omega
  rw [hz _ (by rw [hl.1]; exact hh) (by rw [hl.1]; omega)]
  exact hl

theorem slotLabel_mem_generateTimeSlots (h m : Nat) (h8 : 8 ≤ h) (h20 : h < 20)
    (hm : m = 0 ∨ m = 30) : slotLabel h m ∈ generateTimeSlots := by
  unfold generateTimeSlots
  rw [List.mem_flatMap]
  refine ⟨h, ?_, ?_⟩
  · rw [List.mem_range']
    exact ⟨h - 8, by omega, by omega⟩
  · rw [List.mem_map]
    refine ⟨m, ?_, rfl⟩
    rw [List.mem_range']
    exact ⟨m / 30, by omega, by omega⟩

/-- One turn of the loop pushes an appointment that starts at a local hour from
9 to 16, on the hour or the half hour, with one of the three statuses. -/
theorem mockAppointmentAt_spec (tz : TimeZone) (hz : tz.DaytimeExact) (currentDate : Int)
    (clients : List Profile) (services : List Service) (rand : Nat → ℚ)
    (hrand : ∀ k, 0 ≤ rand k ∧ rand k < 1) (hc : clients ≠ []) (hs : services ≠ [])
    (i k : Nat) :
    ∃ apt next, mockAppointmentAt tz currentDate clients services rand i k = some (apt, next) ∧
      9 ≤ HourFromTime (LocalTime tz apt.start_time) ∧
      HourFromTime (LocalTime tz apt.start_time) ≤ 16 ∧
      (MinFromTime (LocalTime tz apt.start_time) = 0 ∨
        MinFromTime (LocalTime tz apt.start_time) = 30) ∧
      (apt.status = "scheduled" ∨ apt.status = "completed" ∨ apt.status = "cancelled") := by
  obtain ⟨client, hclient⟩ := jsIndex_draw clients hc (rand (k + 3)) (hrand _).1 (hrand _).2
  obtain ⟨service, hservice⟩ := jsIndex_draw services hs (rand (k + 4)) (hrand _).1 (hrand _).2
  obtain ⟨hlo, hhi⟩ := floor_draw_range (rand (k + 1)) 8 (hrand _).1 (hrand _).2 (by norm_num)
  simp only [Nat.cast_ofNat] at hlo hhi
  have hmin : (0 : Int) ≤ (if rand (k + 2) > 1 / 2 then 30 else 0) ∧
      (if rand (k + 2) > 1 / 2 then (30 : Int) else 0) < 60 := by
    split_ifs <;> omega
  have hloc := setHours_local tz hz
    (setDate tz currentDate (getDate tz currentDate - 7 + ⌊rand k * 14⌋))
    (9 + ⌊rand (k + 1) * 8⌋) (if rand (k + 2) > 1 / 2 then 30 else 0)
    (by omega) (by omega) hmin.1 hmin.2
  unfold mockAppointmentAt
  simp only [hclient, hservice]
  refine ⟨_, _, rfl, ?_, ?_, ?_, ?_⟩
  · simp only
    rw [hloc.1]; omega
  · simp only
    rw [hloc.1]; omega
  · simp only
    rw [hloc.2]
    split_ifs
    · exact Or.inr rfl
    · exact Or.inl rfl
  · simp only
    split_ifs
    · exact Or.inl rfl
    · exact Or.inr (Or.inl rfl)
    · exact Or.inr (Or.inr rfl)

/-- The loop runs all its turns when every turn pushes an appointment, and what
holds of every appointment pushed holds of the whole list. -/
theorem mockLoop_spec (P : Appointment → Prop) (tz : TimeZone) (currentDate : Int)
    (clients : List Profile) (services : List Service) (rand : Nat → ℚ)
    (hstep : ∀ i k, ∃ apt next,
      mockAppointmentAt tz currentDate clients services rand i k = some (apt, next) ∧ P apt)
    (remaining i k : Nat) (acc : List Appointment) (hacc : ∀ a ∈ acc, P a) :
    ∃ apts, mockLoop tz currentDate clients services rand remaining i k acc = some apts ∧
      apts.length = acc.length + remaining ∧ ∀ a ∈ apts, P a := by
  induction remaining generalizing i k acc with
  | zero => exact ⟨acc, rfl, rfl, hacc⟩
  | succ n ih =>
    obtain ⟨apt, next, heq, hP⟩ := hstep i k
    unfold mockLoop
    rw [heq]
    simp only
    obtain ⟨apts, h1, h2, h3⟩ := ih (i + 1) next (acc ++ [apt]) (by
      intro a ha
      rw [List.mem_append, List.mem_singleton] at ha
      rcases ha with ha | rfl
      · exact hacc a ha
      · exact hP)
    refine ⟨apts, h1, ?_, h3⟩
    rw [h2, List.length_append, List.length_singleton]
    omega

/-- C25: in a zone that is exact in the daytime, for draws in [0, 1) and
non-empty lists of clients and services, `generateMockAppointments` returns
between 10 and 15 appointments; each starts at a local hour from 9 to 16, on
the hour or the half hour, so that its local `HH:mm` is a label of
`generateTimeSlots`, and has the status `scheduled`, `completed` or
`cancelled`. -/
theorem generateMockAppointments_spec (tz : TimeZone) (hz : tz.DaytimeExact)
    (currentDate : Int) (clients : List Profile) (services : List Service) (rand : Nat → ℚ)
    (hrand : ∀ k, 0 ≤ rand k ∧ rand k < 1) (hc : clients ≠ []) (hs : services ≠ []) :
    ∃ apts, generateMockAppointments tz currentDate clients services rand = some apts ∧
      10 ≤ apts.length ∧ apts.length ≤ 15 ∧
      ∀ apt ∈ apts,
        9 ≤ HourFromTime (LocalTime tz apt.start_time) ∧
        HourFromTime (LocalTime tz apt.start_time) ≤ 16 ∧
        (MinFromTime (LocalTime tz apt.start_time) = 0 ∨
          MinFromTime (LocalTime tz apt.start_time) = 30) ∧
        timeStringPrefix tz apt.start_time ∈ generateTimeSlots ∧
        (apt.status = "scheduled" ∨ apt.status = "completed" ∨ apt.status = "cancelled") := by
  obtain ⟨hlo, hhi⟩ := floor_draw_range (rand 0) 6 (hrand 0).1 (hrand 0).2 (by norm_num)
  push_cast at hlo hhi
  obtain ⟨apts, h1, h2, h3⟩ := mockLoop_spec
    (fun apt => 9 ≤ HourFromTime (LocalTime tz apt.start_time) ∧
      HourFromTime (LocalTime tz apt.start_time) ≤ 16 ∧
      (MinFromTime (LocalTime tz apt.start_time) = 0 ∨
        MinFromTime (LocalTime tz apt.start_time) = 30) ∧
      (apt.status = "scheduled" ∨ apt.status = "completed" ∨ apt.status = "cancelled"))
    tz currentDate clients services rand
    (mockAppointmentAt_spec tz hz currentDate clients services rand hrand hc hs)
    (10 + ⌊rand 0 * 6⌋).toNat 0 1 [] (by simp)
  refine ⟨apts, h1, ?_, ?_, ?_⟩
  · rw [h2]; simp only [List.length_nil]; omega
  · rw [h2]; simp only [List.length_nil]; omega
  · intro apt hapt
    obtain ⟨g1, g2, g3, g4⟩ := h3 apt hapt
    refine ⟨g1, g2, g3, ?_, g4⟩
    obtain ⟨hn, hhn⟩ : ∃ n : Nat, HourFromTime (LocalTime tz apt.start_time) = n :=
      ⟨(HourFromTime (LocalTime tz apt.start_time)).toNat, by omega⟩
    obtain ⟨mn, hmn⟩ : ∃ n : Nat, MinFromTime (LocalTime tz apt.start_time) = n :=
      ⟨(MinFromTime (LocalTime tz apt.start_time)).toNat, by omega⟩
    rw [(timeStringPrefix_eq_slotLabel tz apt.start_time hn mn (by omega) (by omega)).mpr
      ⟨hhn, hmn⟩]
    exact slotLabel_mem_generateTimeSlots hn mn (by omega) (by omega) (by omega)

theorem generateMockAppointments_spec_witness :
    losAngeles2024.DaytimeExact ∧ (∀ k, 0 ≤ sampleDraws k ∧ sampleDraws k < 1) ∧
    mockClients ≠ [] ∧ mockServices ≠ [] ∧
    ∃ apts, generateMockAppointments losAngeles2024 1710545400000 mockClients mockServices
        sampleDraws = some apts ∧
      10 ≤ apts.length ∧ apts.length ≤ 15 ∧
      ∀ apt ∈ apts,
        9 ≤ HourFromTime (LocalTime losAngeles2024 apt.start_time) ∧
        HourFromTime (LocalTime losAngeles2024 apt.start_time) ≤ 16 ∧
        (MinFromTime (LocalTime losAngeles2024 apt.start_time) = 0 ∨
          MinFromTime (LocalTime losAngeles2024 apt.start_time) = 30) ∧
        timeStringPrefix losAngeles2024 apt.start_time ∈ generateTimeSlots ∧
        (apt.status = "scheduled" ∨ apt.status = "completed" ∨ apt.status = "cancelled") :=
  have hdraws : ∀ k, 0 ≤ sampleDraws k ∧ sampleDraws k < 1 := by
    intro k
    unfold sampleDraws
    constructor
    · positivity
    · rw [div_lt_one (by norm_num)]
      exact_mod_cast Nat.mod_lt _ (by norm_num)
  ⟨losAngeles2024_daytimeExact, hdraws, List.cons_ne_nil _ _, List.cons_ne_nil _ _,
    generateMockAppointments_spec losAngeles2024 losAngeles2024_daytimeExact 1710545400000
      mockClients mockServices sampleDraws hdraws (List.cons_ne_nil _ _) (List.cons_ne_nil _ _)⟩

end BarberCalendar
